import Mathlib

/-!
Verification development for the Ephemeral Tabular Artifact Store
(`src/backend/api.py`).  Python strings are modelled as `List Char`,
Python floats used only as timestamps are modelled as `Nat`, fallible
operations return `Except`.  Each definition's doc comment names the
source construct it embeds.
-/

set_option maxRecDepth 4000

/-- Conversion from a Lean string literal to the `List Char` model of
Python strings. -/
def strLit (s : String) : List Char := s.data

/-- Whitespace characters removed by Python's `str.strip()` (the ASCII
subset, which is all that the modelled inputs contain). -/
def isPySpace (c : Char) : Bool :=
  (c == ' ') || (c == '\t') || (c == '\n') || (c == '\r') ||
  (c == '\x0b') || (c == '\x0c')

/-- Left part of Python `str.strip()`: drop leading whitespace. -/
def trimLeft (s : List Char) : List Char := s.dropWhile isPySpace

/-- Right part of Python `str.strip()`: drop trailing whitespace. -/
def trimRight (s : List Char) : List Char :=
  ((s.reverse).dropWhile isPySpace).reverse

/-- Model of Python `str.strip()` as called in `clean_json_output`
(`src/backend/api.py:56`). -/
def pyStrip (s : List Char) : List Char := trimRight (trimLeft s)

/-- The backtick character, written numerically. -/
def tk : Char := Char.ofNat 96

/-- Test for the backtick character. -/
def isTk (c : Char) : Bool := c == tk

/-- Model of the Python check `stripped.startswith('```')` for the
three-backtick fence (`src/backend/api.py:57`). -/
def startsTicks : List Char → Bool
  | a :: b :: c :: _ => isTk a && isTk b && isTk c
  | _ => false

/-- Helper for `splitFence`: prepend a character to the first segment. -/
def consHead (c : Char) : List (List Char) → List (List Char)
  | [] => [[c]]
  | p :: ps => (c :: p) :: ps

/-- Model of Python `str.split` on the three-backtick fence as called at
`src/backend/api.py:58`: non-overlapping occurrences of the separator cut
the string, a leading occurrence produces an empty first segment. -/
def splitFence : List Char → List (List Char)
  | [] => [[]]
  | [c] => consHead c (splitFence [])
  | [c, d] => consHead c (splitFence [d])
  | a :: b :: c :: rest =>
    if isTk a && isTk b && isTk c then [] :: splitFence rest
    else consHead a (splitFence (b :: c :: rest))

/-- Model of Python `content.lower().startswith('json')`
(`src/backend/api.py:63`). -/
def startsJsonTag : List Char → Bool
  | a :: b :: c :: d :: _ =>
    (a.toLower == 'j') && (b.toLower == 's') && (c.toLower == 'o') &&
    (d.toLower == 'n')
  | _ => false

/-- Embedding of `clean_json_output` (`src/backend/api.py:50`-`67`): strip
markdown fences and an optional `json` language tag; `None` becomes the
empty string; a non-fenced input, or a fenced input whose split yields a
single segment, is returned unchanged. -/
def clean_json_output (json_string : Option (List Char)) : List Char :=
  match json_string with
  | none => []
  | some s =>
    let stripped := pyStrip s
    if startsTicks stripped then
      let parts := splitFence stripped
      if parts.length > 1 then
        let content := pyStrip (parts.getD 1 [])
        if startsJsonTag content then pyStrip (content.drop 4)
        else content
      else s
    else s

example :
    clean_json_output (some (strLit "hello")) = strLit "hello" := by decide

example :
    clean_json_output
      (some ([tk, tk, tk, 'j', 's', 'o', 'n', ' ', '[', '1', ']',
              tk, tk, tk])) = strLit "[1]" := by decide

example : splitFence [tk, tk, tk, 'a'] = [[], ['a']] := by decide

/-- JSON values as produced by Python's `json.loads`
(`src/backend/api.py:82`): non-integer numeric literals are kept as their
raw text. -/
inductive Json where
  | jnull : Json
  | jbool (b : Bool) : Json
  | jint (n : Int) : Json
  | jnum (raw : List Char) : Json
  | jstr (s : List Char) : Json
  | jarr (elems : List Json) : Json
  | jobj (members : List (List Char × Json)) : Json

/-- The opening brace character, written numerically. -/
def lbrace : Char := Char.ofNat 123

/-- The closing brace character, written numerically. -/
def rbrace : Char := Char.ofNat 125

/-- The apostrophe character, written numerically. -/
def apos : Char := Char.ofNat 39

/-- JSON whitespace accepted between tokens by `json.loads`. -/
def isJsonWs (c : Char) : Bool :=
  (c == ' ') || (c == '\t') || (c == '\n') || (c == '\r')

/-- Skip JSON whitespace. -/
def skipWs (s : List Char) : List Char := s.dropWhile isJsonWs

/-- Decimal digits to a natural number. -/
def digitsToNat (s : List Char) : Nat :=
  s.foldl (fun a c => a * 10 + (c.toNat - 48)) 0

/-- Decimal text of an integer, as Python `str(int)` renders it. -/
def intChars (n : Int) : List Char := (toString n).data

/-- Python dict insertion semantics for repeated JSON object keys: the
last value wins while the key keeps its first position. -/
def upsertKV (acc : List (List Char × Json)) (k : List Char) (v : Json) :
    List (List Char × Json) :=
  if acc.any (fun kv => kv.1 == k) then
    acc.map (fun kv => if kv.1 == k then (k, v) else kv)
  else acc ++ [(k, v)]

/-- Hexadecimal digit test for unicode escapes. -/
def isHexC (c : Char) : Bool :=
  c.isDigit || (('a' ≤ c) && (c ≤ 'f')) || (('A' ≤ c) && (c ≤ 'F'))

/-- Hexadecimal digit value. -/
def hexVal (c : Char) : Nat :=
  if c.isDigit then c.toNat - 48
  else if ('a' ≤ c) && (c ≤ 'f') then c.toNat - 87
  else c.toNat - 55

/-- String-body scanner of the JSON parser: consumes characters up to the
closing quote, decoding the standard escapes; bare control characters are
rejected as `json.loads` does in strict mode. -/
def parseJString : List Char → Except (List Char) (List Char × List Char)
  | [] => .error (strLit "Unterminated string")
  | c :: rest =>
    if c == '"' then .ok ([], rest)
    else if c == '\\' then
      match rest with
      | [] => .error (strLit "Unterminated string")
      | 'u' :: h1 :: h2 :: h3 :: h4 :: rest3 =>
        if (isHexC h1 && isHexC h2 && isHexC h3 && isHexC h4) then
          match parseJString rest3 with
          | .ok (tl, rem) =>
            .ok (Char.ofNat (4096 * hexVal h1 + 256 * hexVal h2 +
              16 * hexVal h3 + hexVal h4) :: tl, rem)
          | .error e => .error e
        else .error (strLit "Invalid unicode escape")
      | e :: rest2 =>
        match (if e == '"' then some '"'
               else if e == '\\' then some '\\'
               else if e == '/' then some '/'
               else if e == 'b' then some (Char.ofNat 8)
               else if e == 'f' then some (Char.ofNat 12)
               else if e == 'n' then some '\n'
               else if e == 'r' then some '\r'
               else if e == 't' then some '\t'
               else none) with
        | some d =>
          match parseJString rest2 with
          | .ok (tl, rem) => .ok (d :: tl, rem)
          | .error e2 => .error e2
        | none => .error (strLit "Invalid escape")
    else if c.toNat < 32 then .error (strLit "Invalid control character")
    else
      match parseJString rest with
      | .ok (tl, rem) => .ok (c :: tl, rem)
      | .error e => .error e

/-- Number scanner of the JSON parser, following the regular expression
used by `json.loads`: an optional minus, an integer part without leading
zeros, then optional greedy fraction and exponent parts; a literal using
neither fraction nor exponent is a Python `int`, all other numerics keep
their raw text. -/
def parseNumber (s : List Char) : Except (List Char) (Json × List Char) :=
  let signed := match s with
    | '-' :: r => (strLit "-", r)
    | _ => (([] : List Char), s)
  let ip0 := signed.2.takeWhile Char.isDigit
  if ip0.isEmpty then .error (strLit "Expecting value")
  else
    let ip := if 1 < ip0.length && (ip0.headD '0') == '0' then ['0'] else ip0
    let s2 := signed.2.drop ip.length
    let frac := match s2 with
      | '.' :: r =>
        let d := r.takeWhile Char.isDigit
        if d.isEmpty then ([] : List Char) else '.' :: d
      | _ => []
    let s3 := s2.drop frac.length
    let expo := match s3 with
      | e :: r =>
        if e == 'e' || e == 'E' then
          let sr := match r with
            | p :: r2 => if p == '+' || p == '-' then ([p], r2) else (([] : List Char), r)
            | [] => (([] : List Char), r)
          let d := sr.2.takeWhile Char.isDigit
          if d.isEmpty then ([] : List Char) else e :: (sr.1 ++ d)
        else []
      | [] => []
    let rest := s3.drop expo.length
    if frac.isEmpty && expo.isEmpty then
      .ok (Json.jint (if signed.1.isEmpty then (digitsToNat ip : Int)
        else -(digitsToNat ip : Int)), rest)
    else .ok (Json.jnum (signed.1 ++ ip ++ frac ++ expo), rest)

/-- Parsing modes of the JSON parser: a single value, the element loop of
an array, or the member loop of an object. -/
inductive PMode where
  | pval : PMode
  | parrElems (acc : List Json) : PMode
  | pobjMems (acc : List (List Char × Json)) : PMode

/-- Recursive core of the model of `json.loads`: structurally recursive on
a fuel argument that every recursive call decreases; `json_loads` supplies
fuel proportional to the input length, which bounds the parser's actual
recursion depth, so the fuel-exhaustion branch is never taken on the
modelled calls. -/
def parseF : Nat → PMode → List Char → Except (List Char) (Json × List Char)
  | 0, _, _ => .error (strLit "Maximum recursion depth exceeded")
  | Nat.succ n, PMode.pval, s =>
    match skipWs s with
    | [] => .error (strLit "Expecting value")
    | c :: rest =>
      if c == lbrace then
        match skipWs rest with
        | d :: rest2 =>
          if d == rbrace then .ok (Json.jobj [], rest2)
          else parseF n (PMode.pobjMems []) rest
        | [] => .error (strLit "Expecting property name enclosed in double quotes")
      else if c == '[' then
        match skipWs rest with
        | d :: rest2 =>
          if d == ']' then .ok (Json.jarr [], rest2)
          else parseF n (PMode.parrElems []) rest
        | [] => .error (strLit "Expecting value")
      else if c == '"' then
        match parseJString rest with
        | .ok (str, rem) => .ok (Json.jstr str, rem)
        | .error e => .error e
      else if c == 't' then
        match rest with
        | 'r' :: 'u' :: 'e' :: rem => .ok (Json.jbool true, rem)
        | _ => .error (strLit "Expecting value")
      else if c == 'f' then
        match rest with
        | 'a' :: 'l' :: 's' :: 'e' :: rem => .ok (Json.jbool false, rem)
        | _ => .error (strLit "Expecting value")
      else if c == 'n' then
        match rest with
        | 'u' :: 'l' :: 'l' :: rem => .ok (Json.jnull, rem)
        | _ => .error (strLit "Expecting value")
      else if c == 'N' then
        match rest with
        | 'a' :: 'N' :: rem => .ok (Json.jnum (strLit "NaN"), rem)
        | _ => .error (strLit "Expecting value")
      else if c == 'I' then
        match rest with
        | 'n' :: 'f' :: 'i' :: 'n' :: 'i' :: 't' :: 'y' :: rem =>
          .ok (Json.jnum (strLit "Infinity"), rem)
        | _ => .error (strLit "Expecting value")
      else if c == '-' then
        match rest with
        | 'I' :: 'n' :: 'f' :: 'i' :: 'n' :: 'i' :: 't' :: 'y' :: rem =>
          .ok (Json.jnum (strLit "-Infinity"), rem)
        | _ => parseNumber (c :: rest)
      else if c.isDigit then parseNumber (c :: rest)
      else .error (strLit "Expecting value")
  | Nat.succ n, PMode.parrElems acc, s =>
    match parseF n PMode.pval s with
    | .error e => .error e
    | .ok (v, r) =>
      match skipWs r with
      | ',' :: r2 => parseF n (PMode.parrElems (acc ++ [v])) r2
      | d :: r2 =>
        if d == ']' then .ok (Json.jarr (acc ++ [v]), r2)
        else .error (strLit "Expecting comma delimiter")
      | [] => .error (strLit "Expecting comma delimiter")
  | Nat.succ n, PMode.pobjMems acc, s =>
    match skipWs s with
    | c :: r =>
      if c == '"' then
        match parseJString r with
        | .error e => .error e
        | .ok (k, r2) =>
          match skipWs r2 with
          | ':' :: r3 =>
            match parseF n PMode.pval r3 with
            | .error e => .error e
            | .ok (v, r4) =>
              match skipWs r4 with
              | ',' :: r5 => parseF n (PMode.pobjMems (upsertKV acc k v)) r5
              | d :: r5 =>
                if d == rbrace then .ok (Json.jobj (upsertKV acc k v), r5)
                else .error (strLit "Expecting comma delimiter")
              | [] => .error (strLit "Expecting comma delimiter")
          | _ => .error (strLit "Expecting colon delimiter")
      else .error (strLit "Expecting property name enclosed in double quotes")
    | [] => .error (strLit "Expecting property name enclosed in double quotes")

/-- Embedding of `json.loads` as called at `src/backend/api.py:82`: parse
one JSON value and reject trailing non-whitespace as extra data. -/
def json_loads (s : List Char) : Except (List Char) Json :=
  match parseF (4 * s.length + 16) PMode.pval s with
  | .error e => .error e
  | .ok (v, rest) =>
    if (skipWs rest).isEmpty then .ok v else .error (strLit "Extra data")

example : json_loads (strLit "[1, 2]") =
    .ok (Json.jarr [Json.jint 1, Json.jint 2]) := rfl

example : json_loads (strLit " -30 ") = .ok (Json.jint (-30)) := rfl

example : (json_loads (strLit "\x7bnot json")).isOk = false := rfl

example : json_loads (strLit "[\x7b\"a\": \"x\"\x7d]") =
    .ok (Json.jarr [Json.jobj [(strLit "a", Json.jstr "x".data)]]) := rfl

/-- Cells of the normalized DataFrame.  `cfloatInt` is an integer cell
promoted to float64 because its column also holds missing values; `cnum`
keeps the raw text of a non-integer JSON numeric (assumed canonical, so
Python renders it back identically); `craw` holds a nested JSON sequence
kept whole in a single cell. -/
inductive Cell where
  | cstr (s : List Char) : Cell
  | cint (n : Int) : Cell
  | cfloatInt (n : Int) : Cell
  | cnum (raw : List Char) : Cell
  | cbool (b : Bool) : Cell
  | cnull : Cell
  | cmissing : Cell
  | craw (j : Json) : Cell

/-- Python repr of a JSON value, used when `to_csv` stringifies a cell
holding a nested list kept whole by `json_normalize`; fuel-bounded
recursion over the nested value. -/
def pyReprF : Nat → Json → List Char
  | 0, _ => []
  | _ + 1, Json.jnull => strLit "None"
  | _ + 1, Json.jbool b => if b then strLit "True" else strLit "False"
  | _ + 1, Json.jint n => intChars n
  | _ + 1, Json.jnum raw => raw
  | _ + 1, Json.jstr s => apos :: (s ++ [apos])
  | n + 1, Json.jarr elems =>
    '[' :: (List.intercalate (strLit ", ") (elems.map (pyReprF n)) ++ [']'])
  | n + 1, Json.jobj mems =>
    lbrace :: (List.intercalate (strLit ", ")
      (mems.map (fun kv => (apos :: (kv.1 ++ [apos])) ++ (strLit ": ") ++
        pyReprF n kv.2)) ++ [rbrace])

/-- Scalar JSON value to a DataFrame cell (`pd.json_normalize` keeps
nested sequences whole in one cell). -/
def cellOfScalar : Json → Cell
  | Json.jnull => Cell.cnull
  | Json.jbool b => Cell.cbool b
  | Json.jint n => Cell.cint n
  | Json.jnum r => Cell.cnum r
  | Json.jstr s => Cell.cstr s
  | Json.jarr a => Cell.craw (Json.jarr a)
  | Json.jobj o => Cell.craw (Json.jobj o)

/-- Recursive flattening of one record by `pd.json_normalize`
(`src/backend/api.py:92`): nested objects become dot-joined key paths,
every other value is one cell.  Structurally recursive on a fuel argument
decreased at every member; the callers supply fuel exceeding the total
member count, so the exhaustion branch is never taken on modelled calls. -/
def flattenF : Nat → List Char → List (List Char × Json) →
    List (List Char × Cell)
  | 0, _, _ => []
  | _ + 1, _, [] => []
  | n + 1, pre, (k, v) :: rest =>
    (match v with
     | Json.jobj o => flattenF n (pre ++ k ++ strLit ".") o
     | v => [(pre ++ k, cellOfScalar v)]) ++ flattenF n pre rest

/-- Append a column name if it has not been seen yet. -/
def addCol (acc : List (List Char)) (k : List Char) : List (List Char) :=
  if acc.any (fun c => c == k) then acc else acc ++ [k]

/-- Column set of `pd.json_normalize`: union of all flattened keys in
first-seen order across the record sequence. -/
def firstSeenCols (recs : List (List (List Char × Cell))) :
    List (List Char) :=
  recs.foldl (fun acc r => r.foldl (fun a kv => addCol a kv.1) acc) []

/-- Cell of a record under a column: first binding wins, a record lacking
the column yields a missing cell (NaN). -/
def lookupCell (r : List (List Char × Cell)) (c : List Char) : Cell :=
  match r.find? (fun kv => kv.1 == c) with
  | some kv => kv.2
  | none => Cell.cmissing

/-- Integer cell test, for column dtype promotion. -/
def isIntCell : Cell → Bool
  | Cell.cint _ => true
  | _ => false

/-- Integer-or-missing cell test, for column dtype promotion. -/
def isIntNullCell : Cell → Bool
  | Cell.cint _ => true
  | Cell.cnull => true
  | Cell.cmissing => true
  | _ => false

/-- Column kinds after DataFrame construction: kept as built, or promoted
to float64. -/
inductive CKind where
  | keep : CKind
  | floatify : CKind
deriving DecidableEq

/-- Dtype promotion applied by the DataFrame constructor inside
`pd.json_normalize`: a column mixing integers with missing or null cells
becomes float64; a column of only integers stays int64; all other columns
keep their cells as Python objects. -/
def columnKind (cells : List Cell) : CKind :=
  if cells.all isIntCell then CKind.keep
  else if cells.all isIntNullCell then CKind.floatify
  else CKind.keep

/-- Apply a column kind to one cell. -/
def applyKind : CKind → Cell → Cell
  | CKind.keep, c => c
  | CKind.floatify, Cell.cint n => Cell.cfloatInt n
  | CKind.floatify, c => c

/-- The normalized tabular artifact: ordered columns and rows of cells. -/
structure Df where
  columns : List (List Char)
  rows : List (List Cell)

/-- DataFrame construction from flattened records: columns in first-seen
order, one row per record with missing cells for absent keys, then
column-wise dtype promotion. -/
def buildDf (objs : List (List (List Char × Json))) (fuel : Nat) : Df :=
  let recs := objs.map (flattenF fuel [])
  let cols := firstSeenCols recs
  let rawRows := recs.map (fun r => cols.map (lookupCell r))
  let kinds := (List.range cols.length).map
    (fun j => columnKind (rawRows.map (fun r => r.getD j Cell.cmissing)))
  ⟨cols, rawRows.map (fun r => (r.zip kinds).map (fun p => applyKind p.2 p.1))⟩

/-- Member lists of a sequence of JSON objects, or nothing when some
element is not an object. -/
def allObjs : List Json → Option (List (List (List Char × Json)))
  | [] => some []
  | Json.jobj o :: rest =>
    match allObjs rest with
    | some t => some (o :: t)
    | none => none
  | _ :: _ => none

/-- Embedding of `pd.json_normalize(data)` (`src/backend/api.py:92`): a
single object is treated as a one-record sequence, a sequence must consist
of objects, and any other shape raises, which `process_ai_data` reports
as its normalization failure. -/
def pd_json_normalize (j : Json) (fuel : Nat) : Except (List Char) Df :=
  match j with
  | Json.jobj o => .ok (buildDf [o] fuel)
  | Json.jarr elems =>
    match allObjs elems with
    | some objs => .ok (buildDf objs fuel)
    | none => .error (strLit "Could not normalize JSON data into tabular format")
  | _ => .error (strLit "Could not normalize JSON data into tabular format")

/-- Text of one cell in the CSV output of `df.to_csv`: strings verbatim,
integers and booleans in Python text form, promoted integers with a
trailing .0 as float64 renders them, missing and null cells empty. -/
def cellRender : Cell → List Char
  | Cell.cstr s => s
  | Cell.cint n => intChars n
  | Cell.cfloatInt n => intChars n ++ strLit ".0"
  | Cell.cnum raw => raw
  | Cell.cbool b => if b then strLit "True" else strLit "False"
  | Cell.cnull => []
  | Cell.cmissing => []
  | Cell.craw j => pyReprF 1000 j

/-- Minimal-quoting test of `to_csv`: a field is quoted when it contains
the delimiter, the quote character, or a line break. -/
def needsQuote (f : List Char) : Bool :=
  f.any (fun c => (c == ',') || (c == '"') || (c == '\n') || (c == '\r'))

/-- Double every quote character, the standard CSV escape. -/
def escQ : List Char → List Char
  | [] => []
  | c :: r => if c == '"' then '"' :: '"' :: escQ r else c :: escQ r

/-- One CSV field under the minimal quoting rule of `to_csv`. -/
def renderField (f : List Char) : List Char :=
  if needsQuote f then '"' :: (escQ f ++ ['"']) else f

/-- One CSV line: fields joined by the comma delimiter. -/
def renderLine : List (List Char) → List Char
  | [] => []
  | [f] => renderField f
  | f :: g :: t => renderField f ++ ',' :: renderLine (g :: t)

/-- CSV text of a list of lines, each terminated by a newline. -/
def renderRows (rows : List (List (List Char))) : List Char :=
  (rows.map (fun r => renderLine r ++ ['\n'])).flatten

/-- Embedding of `df.to_csv(index=False)` (`src/backend/api.py:100`): a
header line of column names followed by one line per row, with minimal
quoting and newline line terminators. -/
def df_to_csv (df : Df) : List Char :=
  renderRows (df.columns :: df.rows.map (fun r => r.map cellRender))

/-- States of the CSV tokenizer modelling `pd.read_csv`: outside quotes,
inside a quoted field, or just after a quote character inside a quoted
field. -/
inductive CsvMode where
  | mNormal : CsvMode
  | mInQ : CsvMode
  | mPostQ : CsvMode
deriving DecidableEq

/-- Running state of the CSV tokenizer: mode, the field and row being
accumulated, and the completed rows. -/
structure CsvSt where
  mode : CsvMode
  cur : List Char
  row : List (List Char)
  acc : List (List (List Char))

/-- One character step of the CSV tokenizer of `pd.read_csv`: commas split
fields, newlines end lines (completely blank lines are skipped, matching
the default skip_blank_lines behavior), a quote opening an empty field
starts a quoted field in which doubled quotes denote a literal quote. -/
def csvStep (st : CsvSt) (c : Char) : CsvSt :=
  match st.mode with
  | CsvMode.mNormal =>
    if c == ',' then { st with cur := [], row := st.row ++ [st.cur] }
    else if (c == '\n') || (c == '\r') then
      if st.row.isEmpty && st.cur.isEmpty then st
      else ⟨CsvMode.mNormal, [], [], st.acc ++ [st.row ++ [st.cur]]⟩
    else if (c == '"') && st.cur.isEmpty then { st with mode := CsvMode.mInQ }
    else { st with cur := st.cur ++ [c] }
  | CsvMode.mInQ =>
    if c == '"' then { st with mode := CsvMode.mPostQ }
    else { st with cur := st.cur ++ [c] }
  | CsvMode.mPostQ =>
    if c == '"' then { st with mode := CsvMode.mInQ, cur := st.cur ++ ['"'] }
    else if c == ',' then
      ⟨CsvMode.mNormal, [], st.row ++ [st.cur], st.acc⟩
    else if (c == '\n') || (c == '\r') then
      ⟨CsvMode.mNormal, [], [], st.acc ++ [st.row ++ [st.cur]]⟩
    else { st with mode := CsvMode.mNormal, cur := st.cur ++ [c] }

/-- Final flush of the CSV tokenizer: unterminated trailing content forms
a last row. -/
def csvFlush (st : CsvSt) : List (List (List Char)) :=
  if (st.mode == CsvMode.mPostQ) || !st.cur.isEmpty || !st.row.isEmpty then
    st.acc ++ [st.row ++ [st.cur]]
  else st.acc

/-- Tokenized rows of a CSV text. -/
def parseCsvRows (s : List Char) : List (List (List Char)) :=
  csvFlush (s.foldl csvStep ⟨CsvMode.mNormal, [], [], []⟩)

/-- Default missing-value strings of `pd.read_csv`: cells equal to one of
these become NaN. -/
def naStrings : List (List Char) :=
  [strLit "", strLit "#N/A", strLit "#N/A N/A", strLit "#NA",
   strLit "-1.#IND", strLit "-1.#QNAN", strLit "-NaN", strLit "-nan",
   strLit "1.#IND", strLit "1.#QNAN", strLit "<NA>", strLit "N/A",
   strLit "NA", strLit "NULL", strLit "NaN", strLit "None",
   strLit "n/a", strLit "nan", strLit "null"]

/-- Missing-value cell test of `pd.read_csv`. -/
def naLike (s : List Char) : Bool := naStrings.any (fun t => t == s)

/-- Integer-literal cell, as the `read_csv` tokenizer re-types it. -/
def isIntLit (s : List Char) : Bool :=
  match s with
  | [] => false
  | c :: rest =>
    if (c == '-') || (c == '+') then !rest.isEmpty && rest.all Char.isDigit
    else (c :: rest).all Char.isDigit

/-- Unsigned part of the numeric-literal scan of `isNumLit`: integer
digits, optional greedy fraction and exponent. -/
def isNumLitCore (unsigned : List Char) : Bool :=
  let ip := unsigned.takeWhile Char.isDigit
  let s2 := unsigned.drop ip.length
  let fp := match s2 with
    | '.' :: r => some (r.takeWhile Char.isDigit, r.drop (r.takeWhile Char.isDigit).length)
    | _ => none
  let s3 := match fp with
    | some p => p.2
    | none => s2
  let digitsSeen := !ip.isEmpty || (match fp with
    | some p => !p.1.isEmpty
    | none => false)
  let expOk := match s3 with
    | [] => true
    | e :: r =>
      if (e == 'e') || (e == 'E') then
        let body := match r with
          | p :: r2 => if (p == '+') || (p == '-') then r2 else p :: r2
          | [] => []
        !body.isEmpty && body.all Char.isDigit && !r.isEmpty
      else false
  digitsSeen && expOk

/-- Numeric-literal cell (integer, decimal or exponent form), as the
`read_csv` tokenizer re-types it: an optional sign then the unsigned
scan of `isNumLitCore`. -/
def isNumLit (s : List Char) : Bool :=
  isNumLitCore (match s with
    | c :: rest => if (c == '-') || (c == '+') then rest else c :: rest
    | [] => [])

/-- Boolean-literal cell, as the `read_csv` tokenizer re-types it. -/
def isBoolLit (s : List Char) : Bool :=
  (s == strLit "True") || (s == strLit "TRUE") || (s == strLit "true") ||
  (s == strLit "False") || (s == strLit "FALSE") || (s == strLit "false")

/-- Column dtypes inferred by `pd.read_csv`. -/
inductive CTy where
  | tint : CTy
  | tfloat : CTy
  | tbool : CTy
  | tobj : CTy
deriving DecidableEq

/-- Cell values held by a DataFrame read back from CSV text: native
Python values as produced by `df.to_dict`, with non-integer floats kept
as their source text. -/
inductive PdVal where
  | pstr (s : List Char) : PdVal
  | pint (n : Int) : PdVal
  | pfloat (raw : List Char) : PdVal
  | pbool (b : Bool) : PdVal
  | pnan : PdVal
deriving DecidableEq

/-- Dtype inference of `pd.read_csv` over one column of cell texts: all
integer literals give int64, numeric literals mixed with missing values
give float64, boolean literals give bool, anything else keeps strings
with missing-value cells as NaN. -/
def colTy (cells : List (List Char)) : CTy :=
  if !cells.isEmpty && cells.all isIntLit then CTy.tint
  else if !cells.isEmpty && cells.all (fun c => naLike c || isNumLit c) &&
      cells.any (fun c => !(naLike c)) then CTy.tfloat
  else if !cells.isEmpty && cells.all isBoolLit then CTy.tbool
  else CTy.tobj

/-- Signed decimal literal to an integer. -/
def parseIntLit (s : List Char) : Int :=
  match s with
  | '-' :: rest => -(digitsToNat rest : Int)
  | '+' :: rest => (digitsToNat rest : Int)
  | _ => (digitsToNat s : Int)

/-- Conversion of one cell text under an inferred column dtype. -/
def convertCell : CTy → List Char → PdVal
  | CTy.tint, s => PdVal.pint (parseIntLit s)
  | CTy.tfloat, s => if naLike s then PdVal.pnan else PdVal.pfloat s
  | CTy.tbool, s =>
    PdVal.pbool ((s == strLit "True") || (s == strLit "TRUE") ||
      (s == strLit "true"))
  | CTy.tobj, s => if naLike s then PdVal.pnan else PdVal.pstr s

/-- A DataFrame read back from CSV text: header columns and typed rows. -/
structure Df2 where
  columns : List (List Char)
  rows : List (List PdVal)
deriving DecidableEq

/-- Embedding of `pd.read_csv` (`src/backend/api.py:150`): tokenize the
text, fail with EmptyDataError when nothing remains, take the first row as
header, reject rows wider than the header, pad shorter rows with missing
cells, and re-type each column by inference. -/
def pd_read_csv (s : List Char) : Except (List Char) Df2 :=
  match parseCsvRows s with
  | [] => .error (strLit "No columns to parse from file")
  | header :: dataRows =>
    if dataRows.any (fun r => header.length < r.length) then
      .error (strLit "Error tokenizing data")
    else
      let padded := dataRows.map
        (fun r => r ++ List.replicate (header.length - r.length) [])
      let ctys := (List.range header.length).map
        (fun j => colTy (padded.map (fun r => r.getD j [])))
      .ok ⟨header, padded.map
        (fun r => (r.zip ctys).map (fun p => convertCell p.2 p.1))⟩

/-- Embedding of `df.to_dict(orient="records")` (`src/backend/api.py:153`):
one key-value record per row, header cell i mapped to row cell i. -/
def df2_to_dict (df : Df2) : List (List (List Char × PdVal)) :=
  df.rows.map (fun r => df.columns.zip r)

/-- One row of the `processed_data` table (`src/backend/api.py:32`-`38`):
key, serialized CSV payload, absolute expiry timestamp. -/
structure Entry where
  data_id : List Char
  csv_data : List Char
  expiry : Nat
deriving DecidableEq

/-- The fixed time-to-live (`src/backend/api.py:22`). -/
def EXPIRATION_TIME_SECONDS : Nat := 300

/-- An HTTPException as raised by the endpoints: status code and detail
message. -/
structure HErr where
  status : Nat
  detail : List Char
deriving DecidableEq

/-- The single not-found error of `fetch_data` (`src/backend/api.py:144`),
raised identically for an absent key and for an expired entry. -/
def err404 : HErr :=
  ⟨404, strLit "Data ID (Key) not found or has expired. Please run the generation again."⟩

/-- The parse error of `process_ai_data` (`src/backend/api.py:85`). -/
def err400parse : HErr :=
  ⟨400, strLit "Invalid JSON payload received from client. Failed to parse. Check model output format."⟩

/-- The normalization error of `process_ai_data`
(`src/backend/api.py:94`); the source appends the exception text to this
prefix. -/
def err400shape : HErr :=
  ⟨400, strLit "Could not normalize JSON data into tabular format"⟩

/-- An uncaught exception on the fetch path surfaces as the framework's
plain internal server error. -/
def err500 : HErr := ⟨500, strLit "Internal Server Error"⟩

/-- The success body of `process_ai_data` (`src/backend/api.py:121`-`130`),
restricted to the fields with design content: the generated key and the
column count. -/
structure PResp where
  data_id : List Char
  column_count : Nat
deriving DecidableEq

/-- The two response shapes of `fetch_data`: the raw CSV attachment
(content plus the key interpolated into its filename), or the JSON body
holding the records. -/
inductive FetchOut where
  | rawResp (content : List Char) (data_id : List Char) : FetchOut
  | jsonResp (data : List (List (List Char × PdVal))) : FetchOut
deriving DecidableEq

/-- The SELECT of `fetch_data` (`src/backend/api.py:140`): first row whose
primary key matches. -/
def sql_select (s : List Entry) (k : List Char) : Option Entry :=
  s.find? (fun e => e.data_id == k)

/-- The INSERT OR REPLACE of `process_ai_data` (`src/backend/api.py:106`):
the row with the same primary key, if any, is replaced wholesale. -/
def sql_insert_or_replace (s : List Entry) (e : Entry) : List Entry :=
  e :: s.filter (fun x => !(x.data_id == e.data_id))

/-- Model of Python `format.lower()` (`src/backend/api.py:149`). -/
def pyLower (s : List Char) : List Char := s.map Char.toLower

/-- Embedding of the `process_ai_data` endpoint
(`src/backend/api.py:69`-`130`) as a state transformer over the store: the
generated key and the clock are parameters; the cleaned input is parsed,
normalized, serialized to CSV and stored with expiry now plus the TTL, and
any parse or normalization failure leaves the store untouched. -/
def process_ai_data (s : List Entry) (json_data_string : List Char)
    (data_id : List Char) (now : Nat) : (Except HErr PResp) × List Entry :=
  let clean := clean_json_output (some json_data_string)
  match json_loads clean with
  | .error _ => (.error err400parse, s)
  | .ok data =>
    match pd_json_normalize data (clean.length + 1) with
    | .error _ => (.error err400shape, s)
    | .ok df =>
      (.ok ⟨data_id, df.columns.length⟩,
        sql_insert_or_replace s
          ⟨data_id, df_to_csv df, now + EXPIRATION_TIME_SECONDS⟩)

/-- The JSON branch of `fetch_data` (`src/backend/api.py:149`-`154`):
re-read the stored CSV and emit the records; a read failure or a NaN value
in the records escapes as an uncaught exception (the JSON encoder of the
response rejects NaN). -/
def fetch_json_render (csv_data : List Char) : Except HErr FetchOut :=
  match pd_read_csv csv_data with
  | .error _ => .error err500
  | .ok df =>
    let recs := df2_to_dict df
    if recs.any (fun r => r.any (fun kv => kv.2 == PdVal.pnan)) then
      .error err500
    else .ok (FetchOut.jsonResp recs)

/-- Embedding of the `fetch_data` endpoint (`src/backend/api.py:132`-`159`)
as a state transformer over the store: an absent key and an entry whose
expiry lies strictly before now raise the same not-found error; otherwise
a format whose lowercase form is json selects the records path and every
other format returns the stored CSV unchanged. -/
def fetch_data (s : List Entry) (data_id : List Char) (now : Nat)
    (format : List Char) : (Except HErr FetchOut) × List Entry :=
  match sql_select s data_id with
  | none => (.error err404, s)
  | some row =>
    if row.expiry < now then (.error err404, s)
    else if pyLower format == strLit "json" then
      (fetch_json_render row.csv_data, s)
    else (.ok (FetchOut.rawResp row.csv_data data_id), s)

/-- Modelled from the spec: the volatile in-process map backend of the
Artifact Store (spec section 4.3), which the repository's source no longer
contains; put binds the key to the payload with expiry now plus the TTL,
replacing any previous binding in place. -/
def mem_put (m : List Entry) (k payload : List Char) (now : Nat) :
    List Entry :=
  if m.any (fun e => e.data_id == k) then
    m.map (fun e => if e.data_id == k then
      ⟨k, payload, now + EXPIRATION_TIME_SECONDS⟩ else e)
  else m ++ [⟨k, payload, now + EXPIRATION_TIME_SECONDS⟩]

/-- Modelled from the spec: get of the volatile in-process map backend
(spec section 4.3), not-found when the key is absent or the entry's expiry
lies strictly before now. -/
def mem_get (m : List Entry) (k : List Char) (now : Nat) :
    Option (List Char) :=
  match m.find? (fun e => e.data_id == k) with
  | some e => if e.expiry < now then none else some e.csv_data
  | none => none

/-- The put operation of the durable backend: the INSERT OR REPLACE of
`process_ai_data` (`src/backend/api.py:103`-`106`) with expiry now plus
the TTL. -/
def sql_put (s : List Entry) (k payload : List Char) (now : Nat) :
    List Entry :=
  sql_insert_or_replace s ⟨k, payload, now + EXPIRATION_TIME_SECONDS⟩

/-- The get abstraction of the durable backend: the SELECT and expiry
check of `fetch_data` (`src/backend/api.py:138`-`147`). -/
def sql_get (s : List Entry) (k : List Char) (now : Nat) :
    Option (List Char) :=
  match sql_select s k with
  | some e => if e.expiry < now then none else some e.csv_data
  | none => none

example :
    process_ai_data [] (strLit "[]") (strLit "k") 0 =
      (.ok ⟨strLit "k", 0⟩, [⟨strLit "k", strLit "\n", 300⟩]) := rfl

example :
    (process_ai_data []
      (strLit "[\x7b\"name\":\"Ann\",\"age\":30\x7d,\x7b\"name\":\"Bo\"\x7d]")
      (strLit "k") 0).2 =
      [⟨strLit "k", strLit "name,age\nAnn,30.0\nBo,\n", 300⟩] := rfl

example :
    (fetch_data [⟨strLit "k", strLit "a\n1\n", 300⟩] (strLit "k") 0
      (strLit "json")).1 =
      .ok (FetchOut.jsonResp [[(strLit "a", PdVal.pint 1)]]) := rfl

example :
    (fetch_data [⟨strLit "k", strLit "a,b\nx,\"y,z\"\n", 300⟩] (strLit "k")
      0 (strLit "records")).1 =
      .ok (FetchOut.rawResp (strLit "a,b\nx,\"y,z\"\n") (strLit "k")) := rfl

/-- One flat string-valued record as a JSON object. -/
def recToJson (r : List (List Char × List Char)) : Json :=
  Json.jobj (r.map (fun kv => (kv.1, Json.jstr kv.2)))

/-- A sequence of flat string-valued records as a JSON array. -/
def recsToJson (rs : List (List (List Char × List Char))) : Json :=
  Json.jarr (rs.map recToJson)

/-- Fuel bound for flattening a record sequence: strictly exceeds every
record's member count. -/
def recsFuel (rs : List (List (List Char × List Char))) : Nat :=
  rs.foldl (fun a r => a + r.length + 1) 1

/-- The normalize-then-render pipeline of the spec's round-trip property:
`pd.json_normalize` to a DataFrame, `df.to_csv` to the stored payload
(as in `process_ai_data`), then `pd.read_csv` and `df.to_dict` (as in the
JSON branch of `fetch_data`). -/
def records_roundtrip (rs : List (List (List Char × List Char))) :
    Except (List Char) (List (List (List Char × PdVal))) :=
  match pd_json_normalize (recsToJson rs) (recsFuel rs) with
  | .error e => .error e
  | .ok df =>
    match pd_read_csv (df_to_csv df) with
    | .error e => .error e
    | .ok df2 => .ok (df2_to_dict df2)

/-- Column set of a flat record sequence in first-seen order, matching
what `pd.json_normalize` derives for it. -/
def recsCols (rs : List (List (List Char × List Char))) :
    List (List Char) :=
  rs.foldl (fun acc r => r.foldl (fun a kv => addCol a kv.1) acc) []

/-- First value bound to a key in a flat record. -/
def lookupV (r : List (List Char × List Char)) (c : List Char) :
    List Char :=
  match r.find? (fun kv => kv.1 == c) with
  | some kv => kv.2
  | none => []

/-- The canonical records-path output for one flat record: every column
paired with the record's value as a string. -/
def canonRec (cols : List (List Char)) (r : List (List Char × List Char)) :
    List (List Char × PdVal) :=
  cols.map (fun c => (c, PdVal.pstr (lookupV r c)))

/-- A cell text that `pd.read_csv` keeps as a string: not a missing-value
marker, not numeric, not boolean. -/
def plainStr (s : List Char) : Bool :=
  !(naLike s) && !(isNumLit s) && !(isBoolLit s)

/-- Same set of key-to-value pairs, the records-path output pair set
against the original record's pair set with values as strings. -/
def samePairs (o : List (List Char × PdVal))
    (r : List (List Char × List Char)) : Prop :=
  (∀ kv ∈ r, (kv.1, PdVal.pstr kv.2) ∈ o) ∧
  (∀ kw ∈ o, ∃ kv ∈ r, kw = (kv.1, PdVal.pstr kv.2))

example :
    records_roundtrip
      [[(strLit "name", strLit "Ann"), (strLit "x", strLit "b c")],
       [(strLit "x", strLit "zz"), (strLit "name", strLit "Q,Q")]] =
      .ok [[(strLit "name", PdVal.pstr (strLit "Ann")),
            (strLit "x", PdVal.pstr (strLit "b c"))],
           [(strLit "name", PdVal.pstr (strLit "Q,Q")),
            (strLit "x", PdVal.pstr (strLit "zz"))]] := rfl

example :
    records_roundtrip [[(strLit "a", strLit "1")]] =
      .ok [[(strLit "a", PdVal.pint 1)]] := rfl

/-- Discriminator for the records-path output shape of `fetch_data`. -/
def isJsonOut : Except HErr FetchOut → Bool
  | .ok (FetchOut.jsonResp _) => true
  | _ => false

/-- C10: the retrieval operation never mutates the store: for every store,
key, clock and format, `fetch_data` returns the physically stored entries,
payloads and expiry timestamps exactly unchanged, in particular it performs
no lazy eviction of an expired entry it discovers. -/
theorem fetch_data_preserves_store (s : List Entry) (k : List Char)
    (now : Nat) (fmt : List Char) : (fetch_data s k now fmt).2 = s := by
  unfold fetch_data
  cases sql_select s k with
  | none => rfl
  | some row =>
    by_cases h : row.expiry < now
    · simp [h]
    · by_cases h2 : pyLower fmt == strLit "json" <;> simp [h, h2]

/-- C3: `fetch_data` reports not-found both when no entry with the key
exists and when the found entry's expiry lies strictly before the current
time, and the two cases produce the very same error value (status 404 with
the same message), so an expired entry's payload is never returned. -/
theorem fetch_data_not_found (s : List Entry) (k : List Char) (now : Nat)
    (fmt : List Char)
    (h : sql_select s k = none ∨
      ∃ e, sql_select s k = some e ∧ e.expiry < now) :
    (fetch_data s k now fmt).1 = Except.error err404 := by
  unfold fetch_data
  rcases h with h | ⟨e, he, hexp⟩
  · rw [h]
  · rw [he]
    simp [hexp]

/-- Witness for C3 at a concrete expired entry. -/
theorem fetch_data_not_found_witness :
    (sql_select [⟨strLit "k", strLit "p", 5⟩] (strLit "k") = none ∨
      ∃ e, sql_select [⟨strLit "k", strLit "p", 5⟩] (strLit "k") = some e ∧
        e.expiry < 10) ∧
    (fetch_data [⟨strLit "k", strLit "p", 5⟩] (strLit "k") 10
      (strLit "csv")).1 = Except.error err404 := by
  have h : sql_select [⟨strLit "k", strLit "p", 5⟩] (strLit "k") = none ∨
      ∃ e, sql_select [⟨strLit "k", strLit "p", 5⟩] (strLit "k") = some e ∧
        e.expiry < 10 :=
    Or.inr ⟨⟨strLit "k", strLit "p", 5⟩, rfl, by decide⟩
  exact ⟨h, fetch_data_not_found _ _ _ _ h⟩

/-- C2 counterexample: with a live entry stored, requesting format
records returns the raw CSV attachment, not the records (JSON) output the
claim says a records format selects. -/
theorem fetch_data_records_counterexample :
    (fetch_data [⟨strLit "key1", strLit "a,b\nc,d\n", 300⟩] (strLit "key1")
      0 (strLit "records")).1 =
      Except.ok (FetchOut.rawResp (strLit "a,b\nc,d\n") (strLit "key1")) ∧
    isJsonOut (fetch_data [⟨strLit "key1", strLit "a,b\nc,d\n", 300⟩]
      (strLit "key1") 0 (strLit "records")).1 = false := ⟨rfl, rfl⟩

/-- C2 amended: for a live entry, `fetch_data` selects the records (JSON)
output path exactly when the format string lowercases to json; every
other format value, records included, returns the stored payload
unchanged without raising any error. -/
theorem fetch_data_format_dispatch (k p : List Char) (now : Nat)
    (fmt : List Char) :
    fetch_data [⟨k, p, now + EXPIRATION_TIME_SECONDS⟩] k now fmt =
      ((if pyLower fmt == strLit "json" then fetch_json_render p
        else Except.ok (FetchOut.rawResp p k)),
       [⟨k, p, now + EXPIRATION_TIME_SECONDS⟩]) := by
  have hfind : sql_select [⟨k, p, now + EXPIRATION_TIME_SECONDS⟩] k =
      some ⟨k, p, now + EXPIRATION_TIME_SECONDS⟩ := by
    simp [sql_select, List.find?]
  unfold fetch_data
  rw [hfind]
  have hexp : ¬ ((Entry.mk k p (now + EXPIRATION_TIME_SECONDS)).expiry < now) := by
    simp [EXPIRATION_TIME_SECONDS]
  simp only [hexp, if_false]
  by_cases hf : pyLower fmt == strLit "json" <;> simp [hf]

/-- C5: whenever the cleaned input text fails to parse as JSON,
`process_ai_data` fails with the parse error (the 400 response carrying
the parse-failure detail), returns no key, and leaves the store exactly
as it was. -/
theorem process_ai_data_parse_error (s : List Entry)
    (text key : List Char) (now : Nat)
    (h : (json_loads (clean_json_output (some text))).isOk = false) :
    process_ai_data s text key now = (Except.error err400parse, s) := by
  cases hj : json_loads (clean_json_output (some text)) with
  | error e => simp [process_ai_data, hj]
  | ok v => rw [hj] at h; simp [Except.isOk, Except.toBool] at h

/-- Witness for C5 at the concrete malformed input of the spec's
scenario. -/
theorem process_ai_data_parse_error_witness :
    ((json_loads (clean_json_output (some (strLit "\x7bnot json")))).isOk =
      false) ∧
    process_ai_data [] (strLit "\x7bnot json") (strLit "k") 0 =
      (Except.error err400parse, []) := by
  have h : (json_loads (clean_json_output
      (some (strLit "\x7bnot json")))).isOk = false := rfl
  exact ⟨h, process_ai_data_parse_error [] _ _ 0 h⟩

/-- Replacing in place the entry bound to a key makes the first match of a
later lookup exactly the replacement. -/
theorem find_map_replace (m : List Entry) (k p : List Char) (ex : Nat)
    (hany : m.any (fun e => e.data_id == k) = true) :
    (m.map (fun e => if e.data_id == k then Entry.mk k p ex else e)).find?
      (fun e => e.data_id == k) = some ⟨k, p, ex⟩ := by
  induction m with
  | nil => simp at hany
  | cons e rest ih =>
    by_cases he : (e.data_id == k) = true
    · simp [List.find?, he]
    · have h2 : rest.any (fun e => e.data_id == k) = true := by
        simpa [List.any_cons, he] using hany
      simp only [List.map_cons, List.find?, he, if_false]
      simpa [he] using ih h2

/-- Appending a fresh entry for an unbound key makes the first match of a
later lookup exactly that entry. -/
theorem find_append_new (m : List Entry) (k p : List Char) (ex : Nat)
    (hnone : m.any (fun e => e.data_id == k) = false) :
    ((m ++ [Entry.mk k p ex]).find? (fun e => e.data_id == k)) =
      some ⟨k, p, ex⟩ := by
  induction m with
  | nil => simp [List.find?]
  | cons e rest ih =>
    have he : (e.data_id == k) = false := by
      by_contra hc
      simp [List.any_cons, eq_true_of_ne_false hc] at hnone
    have h2 : rest.any (fun e => e.data_id == k) = false := by
      simpa [List.any_cons, he] using hnone
    simp only [List.cons_append, List.find?, he]
    exact ih h2

/-- A put on the in-memory backend binds the key to the fresh entry, which
the lookup then finds first. -/
theorem mem_put_find (m : List Entry) (k p : List Char) (now : Nat) :
    (mem_put m k p now).find? (fun e => e.data_id == k) =
      some ⟨k, p, now + EXPIRATION_TIME_SECONDS⟩ := by
  unfold mem_put
  by_cases hany : m.any (fun e => e.data_id == k) = true
  · simp only [hany, if_true]
    exact find_map_replace m k p _ hany
  · simp only [eq_false_of_ne_true hany, if_false]
    exact find_append_new m k p _ (eq_false_of_ne_true hany)

/-- C6: a put followed by an immediate get with the same key yields the
stored payload, on the durable backend embedded from the source and on
the spec-modelled volatile backend alike, and the two backends' results
are identical. -/
theorem put_get_both_backends (s m : List Entry) (k p : List Char)
    (now : Nat) :
    sql_get (sql_put s k p now) k now = some p ∧
    mem_get (mem_put m k p now) k now = some p ∧
    sql_get (sql_put s k p now) k now = mem_get (mem_put m k p now) k now := by
  have hsql : sql_get (sql_put s k p now) k now = some p := by
    unfold sql_get sql_put sql_select sql_insert_or_replace
    simp [List.find?, EXPIRATION_TIME_SECONDS]
  have hmem : mem_get (mem_put m k p now) k now = some p := by
    unfold mem_get
    rw [mem_put_find]
    simp [EXPIRATION_TIME_SECONDS]
  exact ⟨hsql, hmem, hsql.trans hmem.symm⟩

/-- C9: normalizing the empty record sequence yields an artifact with zero
columns and zero rows whose serialized form is the single header-only
empty line, and ingesting the empty array stores exactly that payload with
column count zero. -/
theorem empty_sequence_artifact :
    json_loads (strLit "[]") = Except.ok (Json.jarr []) ∧
    pd_json_normalize (Json.jarr []) 3 = Except.ok ⟨[], []⟩ ∧
    df_to_csv ⟨[], []⟩ = strLit "\n" ∧
    process_ai_data [] (strLit "[]") (strLit "k9") 0 =
      (Except.ok ⟨strLit "k9", 0⟩, [⟨strLit "k9", strLit "\n", 300⟩]) :=
  ⟨rfl, rfl, rfl, rfl⟩

/-- The raw text of the spec's end-to-end scenario. -/
def c1input : List Char :=
  strLit "[\x7b\"name\":\"Ann\",\"age\":30\x7d,\x7b\"name\":\"Bo\"\x7d]"

/-- The CSV payload the source derives for the scenario: the age column is
promoted to float64 because the second record lacks it, so 30 renders as
30.0 and the missing cell renders empty. -/
def c1csv : List Char := strLit "name,age\nAnn,30.0\nBo,\n"

/-- The store after ingesting the scenario under key k at time 0. -/
def c1store : List Entry := [⟨strLit "k", c1csv, 300⟩]

/-- The scenario's normalized DataFrame. -/
def c1df : Except (List Char) Df :=
  match json_loads c1input with
  | .ok j => pd_json_normalize j (c1input.length + 1)
  | .error e => .error e

/-- C1 counterexample: retrieving the scenario's artifact with format
records does not yield the records (JSON) body the claim describes; the
records path is not selected. -/
theorem scenario_records_counterexample :
    isJsonOut (fetch_data c1store (strLit "k") 0 (strLit "records")).1 =
      false := rfl

/-- C1 amended: ingesting the scenario text yields columns name, age in
first-seen order and stores the CSV whose header line is name,age with the
missing age cell empty; retrieving with format raw returns that CSV text
as the attachment, and retrieving with format records returns the very
same CSV text, because only a format lowercasing to json selects the
records path. -/
theorem process_fetch_scenario :
    c1df.map Df.columns = Except.ok [strLit "name", strLit "age"] ∧
    process_ai_data [] c1input (strLit "k") 0 =
      (Except.ok ⟨strLit "k", 2⟩, c1store) ∧
    (fetch_data c1store (strLit "k") 0 (strLit "raw")).1 =
      Except.ok (FetchOut.rawResp c1csv (strLit "k")) ∧
    (fetch_data c1store (strLit "k") 0 (strLit "records")).1 =
      Except.ok (FetchOut.rawResp c1csv (strLit "k")) :=
  ⟨rfl, rfl, rfl, rfl⟩

/-- Contiguous-subsegment relation on character lists. -/
def SubSeg (a b : List Char) : Prop := ∃ u v, u ++ a ++ v = b

/-- Subsegments compose. -/
theorem subseg_trans (a b c : List Char) (h1 : SubSeg a b)
    (h2 : SubSeg b c) : SubSeg a c := by
  rcases h1 with ⟨u1, v1, h1⟩
  rcases h2 with ⟨u2, v2, h2⟩
  exact ⟨u2 ++ u1, v1 ++ v2, by rw [← h2, ← h1]; simp⟩

/-- Dropping a front segment yields a subsegment. -/
theorem subseg_drop (l : List Char) (n : Nat) : SubSeg (l.drop n) l :=
  ⟨l.take n, [], by simp⟩

/-- The left-trimmed list is a subsegment. -/
theorem subseg_trimLeft (s : List Char) : SubSeg (trimLeft s) s :=
  ⟨s.takeWhile isPySpace, [], by simp [trimLeft, List.takeWhile_append_dropWhile]⟩

/-- The right-trimmed list is a subsegment. -/
theorem subseg_trimRight (s : List Char) : SubSeg (trimRight s) s := by
  refine ⟨[], (s.reverse.takeWhile isPySpace).reverse, ?_⟩
  have h : (s.reverse.dropWhile isPySpace).reverse ++
      (s.reverse.takeWhile isPySpace).reverse =
      (s.reverse.takeWhile isPySpace ++ s.reverse.dropWhile isPySpace).reverse := by
    rw [List.reverse_append]
  simp only [trimRight, List.nil_append, h,
    List.takeWhile_append_dropWhile, List.reverse_reverse]

/-- The fully stripped list is a subsegment of the original. -/
theorem subseg_pyStrip (s : List Char) : SubSeg (pyStrip s) s :=
  subseg_trans _ _ _ (subseg_trimRight (trimLeft s)) (subseg_trimLeft s)

/-- Occurrence of the three-backtick fence anywhere in a list. -/
def hasTicks : List Char → Bool
  | [] => false
  | c :: rest => startsTicks (c :: rest) || hasTicks rest


/-- A fence at the front survives appending on the right. -/
theorem startsTicks_append (l v : List Char) (h : startsTicks l = true) :
    startsTicks (l ++ v) = true := by
  match l with
  | [] => simp [startsTicks] at h
  | [a] => simp [startsTicks] at h
  | [a, b] => simp [startsTicks] at h
  | a :: b :: c :: r => simpa [startsTicks] using h

/-- A fence occurrence survives appending on the right. -/
theorem hasTicks_append_right (a v : List Char) (h : hasTicks a = true) :
    hasTicks (a ++ v) = true := by
  induction a with
  | nil => simp [hasTicks] at h
  | cons c rest ih =>
    rcases Bool.or_eq_true_iff.mp (by simpa [hasTicks] using h) with h1 | h1
    · have h2 := startsTicks_append (c :: rest) v h1
      rw [List.cons_append] at h2
      rw [List.cons_append, hasTicks, h2]
      simp
    · rw [List.cons_append, hasTicks, ih h1]
      simp

/-- A fence occurrence survives prepending on the left. -/
theorem hasTicks_append_left (u a : List Char) (h : hasTicks a = true) :
    hasTicks (u ++ a) = true := by
  induction u with
  | nil => simpa using h
  | cons c u' ih =>
    rw [List.cons_append, hasTicks, ih]
    simp

/-- A subsegment of a fence-free list is fence-free. -/
theorem hasTicks_subseg (a b : List Char) (hs : SubSeg a b)
    (h : hasTicks b = false) : hasTicks a = false := by
  rcases hs with ⟨u, v, huv⟩
  by_contra hc
  have ha : hasTicks a = true := by
    revert hc; cases hasTicks a <;> simp
  have hb : hasTicks b = true := by
    rw [← huv, List.append_assoc]
    exact hasTicks_append_left u _ (hasTicks_append_right a v ha)
  rw [hb] at h
  cases h

/-- A fence at the front is a fence occurrence. -/
theorem startsTicks_hasTicks (l : List Char) (h : startsTicks l = true) :
    hasTicks l = true := by
  cases l with
  | nil => simp [startsTicks] at h
  | cons c rest => simp [hasTicks, h]

/-- The fence split always yields at least one segment. -/
theorem splitFence_ne_nil : ∀ l : List Char, splitFence l ≠ []
  | [] => by simp [splitFence]
  | [c] => by simp [splitFence, consHead]
  | [c, d] => by simp [splitFence, consHead]
  | a :: b :: c :: rest => by
    simp only [splitFence]
    split
    · simp
    · cases hsp : splitFence (b :: c :: rest) with
      | nil => exact absurd hsp (splitFence_ne_nil (b :: c :: rest))
      | cons p ps => simp [consHead]

/-- The first segment of the fence split is a front segment of the
input. -/
theorem splitFence_head_pre : ∀ l : List Char,
    ∃ t, (splitFence l).getD 0 [] ++ t = l
  | [] => ⟨[], rfl⟩
  | [c] => ⟨[], rfl⟩
  | [c, d] => ⟨[], rfl⟩
  | a :: b :: c :: rest => by
    by_cases h : (isTk a && isTk b && isTk c) = true
    · exact ⟨a :: b :: c :: rest, by simp [splitFence, h]⟩
    · obtain ⟨t, ht⟩ := splitFence_head_pre (b :: c :: rest)
      cases hsp : splitFence (b :: c :: rest) with
      | nil => exact absurd hsp (splitFence_ne_nil (b :: c :: rest))
      | cons p ps =>
        rw [hsp] at ht
        simp only [List.getD_cons_zero] at ht
        refine ⟨t, ?_⟩
        simp [splitFence, h, hsp, consHead, ht]

/-- No segment of the fence split contains a fence occurrence. -/
theorem splitFence_no_ticks : ∀ l : List Char, ∀ p ∈ splitFence l,
    hasTicks p = false
  | [], p, hp => by
    simp [splitFence] at hp
    simp [hp, hasTicks]
  | [c], p, hp => by
    simp [splitFence, consHead] at hp
    simp [hp, hasTicks, startsTicks]
  | [c, d], p, hp => by
    simp [splitFence, consHead] at hp
    simp [hp, hasTicks, startsTicks]
  | a :: b :: c :: rest, p, hp => by
    by_cases h : (isTk a && isTk b && isTk c) = true
    · rw [splitFence, if_pos h] at hp
      rcases List.mem_cons.mp hp with h1 | h1
      · simp [h1, hasTicks]
      · exact splitFence_no_ticks rest p h1
    · rw [splitFence, if_neg h] at hp
      cases hsp : splitFence (b :: c :: rest) with
      | nil => exact absurd hsp (splitFence_ne_nil (b :: c :: rest))
      | cons p0 ps =>
        rw [hsp] at hp
        simp only [consHead] at hp
        rcases List.mem_cons.mp hp with h1 | h1
        · have hp0 : hasTicks p0 = false :=
            splitFence_no_ticks (b :: c :: rest) p0
              (by rw [hsp]; exact List.mem_cons_self _ _)
          obtain ⟨t, ht⟩ := splitFence_head_pre (b :: c :: rest)
          rw [hsp] at ht
          simp only [List.getD_cons_zero] at ht
          subst h1
          cases p0 with
          | nil => simp [hasTicks, startsTicks]
          | cons x p1 =>
            cases p1 with
            | nil => simp [hasTicks, startsTicks]
            | cons y p2 =>
              have hxy : x = b ∧ y = c := by
                rw [List.cons_append, List.cons_append] at ht
                injection ht with e1 hrest
                injection hrest with e2 _
                exact ⟨e1, e2⟩
              have hp0' : hasTicks (x :: y :: p2) = false := hp0
              have hsT : startsTicks (a :: x :: y :: p2) = false := by
                show (isTk a && isTk x && isTk y) = false
                rw [hxy.1, hxy.2]
                cases hq : (isTk a && isTk b && isTk c)
                · rfl
                · exact absurd hq h
              show (startsTicks (a :: x :: y :: p2) ||
                hasTicks (x :: y :: p2)) = false
              rw [hsT, hp0']
              rfl
        · exact splitFence_no_ticks (b :: c :: rest) p
            (by rw [hsp]; exact List.mem_cons_of_mem _ h1)

/-- Splitting a fence-prefixed list cuts off an empty first segment. -/
theorem splitFence_of_ticks (a b c : Char) (rest : List Char)
    (h : (isTk a && isTk b && isTk c) = true) :
    splitFence (a :: b :: c :: rest) = [] :: splitFence rest := by
  rw [splitFence, if_pos h]

/-- A fence-free text passes through the stripper unchanged. -/
theorem clean_fixpoint (o : List Char) (h : hasTicks o = false) :
    clean_json_output (some o) = o := by
  have h2 : hasTicks (pyStrip o) = false :=
    hasTicks_subseg _ _ (subseg_pyStrip o) h
  have h3 : ¬ (startsTicks (pyStrip o) = true) := by
    intro hq
    rw [startsTicks_hasTicks _ hq] at h2
    cases h2
  simp only [clean_json_output]
  rw [if_neg h3]

/-- C7: the fence stripper is idempotent: stripping an already-stripped
input returns it unchanged, for every input including the absent one. -/
theorem clean_json_output_idem (x : Option (List Char)) :
    clean_json_output (some (clean_json_output x)) = clean_json_output x := by
  cases x with
  | none => rfl
  | some s =>
    by_cases hb : startsTicks (pyStrip s) = true
    · rcases hps : pyStrip s with _ | ⟨a, _ | ⟨b, _ | ⟨c, rest⟩⟩⟩
      · rw [hps] at hb; simp [startsTicks] at hb
      · rw [hps] at hb; simp [startsTicks] at hb
      · rw [hps] at hb; simp [startsTicks] at hb
      · rw [hps] at hb
        have habc : (isTk a && isTk b && isTk c) = true := hb
        have hsp := splitFence_of_ticks a b c rest habc
        have hne := splitFence_ne_nil rest
        have hnt0 : hasTicks ((splitFence rest).getD 0 []) = false := by
          cases hq : splitFence rest with
          | nil => exact absurd hq hne
          | cons p0 ps =>
            simp only [List.getD_cons_zero]
            exact splitFence_no_ticks rest p0
              (by rw [hq]; exact List.mem_cons_self _ _)
        have hcontent :
            hasTicks (pyStrip ((splitFence rest).getD 0 [])) = false :=
          hasTicks_subseg _ _ (subseg_pyStrip _) hnt0
        have hval : clean_json_output (some s) =
            (if startsJsonTag (pyStrip ((splitFence rest).getD 0 [])) then
              pyStrip ((pyStrip ((splitFence rest).getD 0 [])).drop 4)
            else pyStrip ((splitFence rest).getD 0 [])) := by
          simp only [clean_json_output]
          rw [hps, hsp]
          rw [show startsTicks (a :: b :: c :: rest) = true from habc]
          simp only [if_true, List.length_cons]
          have hgt : 1 < (splitFence rest).length + 1 := by
            have := List.length_pos.mpr hne
            omega
          rw [if_pos hgt]
          simp only [List.getD_cons_succ]
        rw [hval]
        by_cases htag :
            startsJsonTag (pyStrip ((splitFence rest).getD 0 [])) = true
        · rw [if_pos htag]
          exact clean_fixpoint _ (hasTicks_subseg _ _ (subseg_pyStrip _)
            (hasTicks_subseg _ _ (subseg_drop _ 4) hcontent))
        · rw [if_neg htag]
          exact clean_fixpoint _ hcontent
    · have hval : clean_json_output (some s) = s := by
        simp only [clean_json_output]
        rw [if_neg hb]
      rw [hval]
      exact hval

/-- C8: for an input whose stripped text starts with the fence, the claim
that a one-segment split returns the original input holds, and holds
vacuously: splitting a fence-prefixed text always yields at least two
segments (the segment before the leading fence is empty), so the
one-segment fallback branch of the source is unreachable. -/
theorem fence_single_segment (s : List Char)
    (h : startsTicks (pyStrip s) = true) :
    ((splitFence (pyStrip s)).length = 1 →
      clean_json_output (some s) = s) ∧
    2 ≤ (splitFence (pyStrip s)).length := by
  rcases hps : pyStrip s with _ | ⟨a, _ | ⟨b, _ | ⟨c, rest⟩⟩⟩
  · rw [hps] at h; simp [startsTicks] at h
  · rw [hps] at h; simp [startsTicks] at h
  · rw [hps] at h; simp [startsTicks] at h
  · rw [hps] at h
    have habc : (isTk a && isTk b && isTk c) = true := h
    have hsp := splitFence_of_ticks a b c rest habc
    have hlen : 2 ≤ (splitFence (a :: b :: c :: rest)).length := by
      rw [hsp, List.length_cons]
      have := List.length_pos.mpr (splitFence_ne_nil rest)
      omega
    exact ⟨fun h1 => False.elim (by omega), hlen⟩

/-- Witness for C8 at a concrete fenced input. -/
theorem fence_single_segment_witness :
    startsTicks (pyStrip [tk, tk, tk, 'a', tk, tk, tk]) = true ∧
    (((splitFence (pyStrip [tk, tk, tk, 'a', tk, tk, tk])).length = 1 →
      clean_json_output (some [tk, tk, tk, 'a', tk, tk, tk]) =
        [tk, tk, tk, 'a', tk, tk, tk]) ∧
     2 ≤ (splitFence (pyStrip [tk, tk, tk, 'a', tk, tk, tk])).length) := by
  have h : startsTicks (pyStrip [tk, tk, tk, 'a', tk, tk, tk]) = true := by
    decide
  exact ⟨h, fence_single_segment _ h⟩

/-- C4 counterexample: a flat record whose string value is the numeric
literal 1 does not round-trip: the records path returns it as the integer
1, not the string. -/
theorem records_roundtrip_counterexample :
    records_roundtrip [[(strLit "a", strLit "1")]] =
      Except.ok [[(strLit "a", PdVal.pint 1)]] ∧
    ([[(strLit "a", PdVal.pint 1)]] :
        List (List (List Char × PdVal))) ≠
      [[(strLit "a", PdVal.pstr (strLit "1"))]] :=
  ⟨rfl, by decide⟩

/-- The record-sequence fuel only grows along the fold. -/
theorem recsFuel_foldl_ge (l : List (List (List Char × List Char)))
    (a : Nat) : a ≤ l.foldl (fun a r => a + r.length + 1) a := by
  induction l generalizing a with
  | nil => exact Nat.le_refl a
  | cons r t ih => exact Nat.le_trans (by omega) (ih (a + r.length + 1))

/-- Every member record's length lies strictly below the fold of the
fuel bound, from any start. -/
theorem recsFuel_mem_aux (rs : List (List (List Char × List Char)))
    (r : List (List Char × List Char)) (h : r ∈ rs) :
    ∀ a : Nat, r.length < rs.foldl (fun a r => a + r.length + 1) a := by
  induction rs with
  | nil => cases h
  | cons hd t ih =>
    intro a
    rcases List.mem_cons.mp h with h1 | h1
    · subst h1
      simp only [List.foldl_cons]
      exact Nat.lt_of_lt_of_le (by omega)
        (recsFuel_foldl_ge t (a + r.length + 1))
    · simp only [List.foldl_cons]
      exact ih h1 _

/-- Every member record's length lies strictly below the fuel bound. -/
theorem recsFuel_mem (rs : List (List (List Char × List Char)))
    (r : List (List Char × List Char)) (h : r ∈ rs) :
    r.length < recsFuel rs :=
  recsFuel_mem_aux rs r h 1

/-- Extracting the object members of a sequence of JSON objects always
succeeds and recovers the member lists. -/
theorem allObjs_map (rs : List (List (List Char × List Char))) :
    allObjs (rs.map recToJson) =
      some (rs.map (fun r => r.map (fun kv => (kv.1, Json.jstr kv.2)))) := by
  induction rs with
  | nil => rfl
  | cons r t ih => simp [recToJson, allObjs, ih]

/-- Flattening a flat record is the identity on keys with string cells,
for any sufficient fuel. -/
theorem flattenF_flat (r : List (List Char × List Char)) (fuel : Nat)
    (h : r.length < fuel) :
    flattenF fuel [] (r.map (fun kv => (kv.1, Json.jstr kv.2))) =
      r.map (fun kv => (kv.1, Cell.cstr kv.2)) := by
  induction r generalizing fuel with
  | nil =>
    cases fuel with
    | zero => omega
    | succ n => rfl
  | cons kv r' ih =>
    cases fuel with
    | zero => omega
    | succ n =>
      simp only [List.map_cons, flattenF]
      rw [ih n (by simpa using Nat.lt_of_succ_lt_succ h)]
      rfl

/-- The first-seen key fold ignores the cell component. -/
theorem foldl_addCol_map (r : List (List Char × List Char))
    (g : List Char × List Char → List Char × Cell)
    (hg : ∀ kv, (g kv).1 = kv.1) (acc : List (List Char)) :
    (r.map g).foldl (fun a kv => addCol a kv.1) acc =
      r.foldl (fun a kv => addCol a kv.1) acc := by
  induction r generalizing acc with
  | nil => rfl
  | cons kv r' ih =>
    simp only [List.map_cons, List.foldl_cons, hg kv]
    exact ih _

/-- The first-seen columns of the flattened records equal the first-seen
columns of the original flat records. -/
theorem firstSeenCols_flat (rs : List (List (List Char × List Char))) :
    firstSeenCols (rs.map (fun r => r.map (fun kv => (kv.1, Cell.cstr kv.2)))) =
      recsCols rs := by
  unfold firstSeenCols recsCols
  generalize hacc : ([] : List (List Char)) = acc
  clear hacc
  induction rs generalizing acc with
  | nil => rfl
  | cons r t ih =>
    simp only [List.map_cons, List.foldl_cons]
    rw [foldl_addCol_map r _ (fun kv => rfl) acc]
    exact ih _

/-- Cell lookup in a flattened flat record mirrors value lookup in the
original record. -/
theorem lookupCell_map (r : List (List Char × List Char)) (c : List Char) :
    lookupCell (r.map (fun kv => (kv.1, Cell.cstr kv.2))) c =
      (match r.find? (fun kv => kv.1 == c) with
       | some kv => Cell.cstr kv.2
       | none => Cell.cmissing) := by
  induction r with
  | nil => rfl
  | cons kv r' ih =>
    by_cases hk : (kv.1 == c) = true
    · simp [lookupCell, List.find?, hk]
    · have hk' : (kv.1 == c) = false := by
        revert hk; cases (kv.1 == c) <;> simp
      simp only [List.map_cons, lookupCell, List.find?, hk']
      exact ih

/-- String and missing cells are unchanged by any column-kind
application. -/
theorem applyKind_id (k : CKind) (c : Cell)
    (h : (∃ s, c = Cell.cstr s) ∨ c = Cell.cmissing) :
    applyKind k c = c := by
  rcases h with ⟨s, rfl⟩ | rfl <;> cases k <;> rfl

/-- Zipping a row of kind-invariant cells with any kind list of at least
its length and applying the kinds is the identity. -/
theorem zip_applyKind_id (row : List Cell) (kinds : List CKind)
    (hlen : row.length ≤ kinds.length)
    (hinv : ∀ c ∈ row, (∃ s, c = Cell.cstr s) ∨ c = Cell.cmissing) :
    (row.zip kinds).map (fun p => applyKind p.2 p.1) = row := by
  induction row generalizing kinds with
  | nil => rfl
  | cons c row' ih =>
    cases kinds with
    | nil => simp at hlen
    | cons k kinds' =>
      simp only [List.zip_cons_cons, List.map_cons]
      rw [applyKind_id k c (hinv c (List.mem_cons_self _ _)),
        ih kinds' (by simpa using Nat.le_of_succ_le_succ hlen)
          (fun x hx => hinv x (List.mem_cons_of_mem _ hx))]

/-- Normalizing a sequence of flat string-valued records yields the
first-seen columns and, per record, one string cell per column (missing
keys giving missing cells), with no dtype promotion. -/
theorem normalize_flat (rs : List (List (List Char × List Char)))
    (fuel : Nat) (hfuel : ∀ r ∈ rs, r.length < fuel) :
    pd_json_normalize (recsToJson rs) fuel =
      Except.ok ⟨recsCols rs,
        rs.map (fun r => (recsCols rs).map
          (fun c => lookupCell (r.map (fun kv => (kv.1, Cell.cstr kv.2))) c))⟩ := by
  have hrecs : (rs.map (fun r => r.map (fun kv => (kv.1, Json.jstr kv.2)))).map
      (flattenF fuel []) =
      rs.map (fun r => r.map (fun kv => (kv.1, Cell.cstr kv.2))) := by
    rw [List.map_map]
    exact List.map_congr_left (fun r hr => flattenF_flat r fuel (hfuel r hr))
  have hraw : ((rs.map (fun r => r.map (fun kv => (kv.1, Cell.cstr kv.2)))).map
      (fun fr => (recsCols rs).map (fun c => lookupCell fr c))) =
      rs.map (fun r => (recsCols rs).map
        (fun c => lookupCell (r.map (fun kv => (kv.1, Cell.cstr kv.2))) c)) := by
    rw [List.map_map]
    rfl
  show pd_json_normalize (Json.jarr (rs.map recToJson)) fuel = _
  simp only [pd_json_normalize]
  rw [allObjs_map]
  simp only [buildDf]
  rw [hrecs, firstSeenCols_flat]
  refine congrArg Except.ok (congrArg (Df.mk (recsCols rs)) ?_)
  rw [← hraw, List.map_map]
  refine List.map_congr_left ?_
  intro fr hfr
  simp only [Function.comp]
  obtain ⟨r, hr, hfreq⟩ := List.mem_map.mp hfr
  refine zip_applyKind_id _ _ ?_ ?_
  · simp
  · intro c hc
    obtain ⟨col, hcol, hceq⟩ := List.mem_map.mp hc
    rw [← hceq, ← hfreq, lookupCell_map]
    cases hfind : r.find? (fun kv => kv.1 == col) with
    | some kv => exact Or.inl ⟨kv.2, rfl⟩
    | none => exact Or.inr rfl

/-- Scanning plain field characters in normal mode appends them to the
current field. -/
theorem csv_scan_plain (cs : List Char) (cur : List Char)
    (row : List (List Char)) (acc : List (List (List Char)))
    (h : ∀ c ∈ cs,
      ((c == ',') || (c == '"') || (c == '\n') || (c == '\r')) = false) :
    List.foldl csvStep ⟨CsvMode.mNormal, cur, row, acc⟩ cs =
      ⟨CsvMode.mNormal, cur ++ cs, row, acc⟩ := by
  induction cs generalizing cur with
  | nil => simp
  | cons c cs' ih =>
    have hc := h c (List.mem_cons_self _ _)
    simp only [Bool.or_eq_false_iff] at hc
    obtain ⟨⟨⟨h1, h2⟩, h3⟩, h4⟩ := hc
    rw [List.foldl_cons]
    have hstep : csvStep ⟨CsvMode.mNormal, cur, row, acc⟩ c =
        ⟨CsvMode.mNormal, cur ++ [c], row, acc⟩ := by
      simp [csvStep, h1, h2, h3, h4]
    rw [hstep, ih _ (fun x hx => h x (List.mem_cons_of_mem _ hx))]
    simp

/-- Scanning an escaped field body inside quotes appends the unescaped
body to the current field. -/
theorem csv_scan_quoted (f : List Char) (cur : List Char)
    (row : List (List Char)) (acc : List (List (List Char))) :
    List.foldl csvStep ⟨CsvMode.mInQ, cur, row, acc⟩ (escQ f) =
      ⟨CsvMode.mInQ, cur ++ f, row, acc⟩ := by
  induction f generalizing cur with
  | nil => simp [escQ]
  | cons c f' ih =>
    by_cases hc : (c == '"') = true
    · have hceq : c = '"' := eq_of_beq hc
      subst hceq
      simp only [escQ]
      rw [if_pos hc]
      rw [List.foldl_cons, List.foldl_cons]
      have h1 : csvStep ⟨CsvMode.mInQ, cur, row, acc⟩ '"' =
          ⟨CsvMode.mPostQ, cur, row, acc⟩ := by simp [csvStep]
      have h2 : csvStep ⟨CsvMode.mPostQ, cur, row, acc⟩ '"' =
          ⟨CsvMode.mInQ, cur ++ ['"'], row, acc⟩ := by simp [csvStep]
      rw [h1, h2, ih]
      simp
    · have hc' : (c == '"') = false := by
        revert hc; cases (c == '"') <;> simp
      simp only [escQ]
      rw [if_neg hc]
      rw [List.foldl_cons]
      have h1 : csvStep ⟨CsvMode.mInQ, cur, row, acc⟩ c =
          ⟨CsvMode.mInQ, cur ++ [c], row, acc⟩ := by simp [csvStep, hc']
      rw [h1, ih]
      simp

/-- Characters of an unquoted rendered field are plain. -/
theorem plain_of_not_needsQuote (f : List Char) (hq : needsQuote f = false) :
    ∀ c ∈ f,
      ((c == ',') || (c == '"') || (c == '\n') || (c == '\r')) = false := by
  intro c hcmem
  have := List.any_eq_false.mp hq c hcmem
  revert this
  cases (c == ',') <;> cases (c == '"') <;> cases (c == '\n') <;>
    cases (c == '\r') <;> simp

/-- Consuming one rendered field followed by a comma pushes the field onto
the row. -/
theorem csv_field_comma (f : List Char) (row : List (List Char))
    (acc : List (List (List Char))) (rest : List Char) :
    List.foldl csvStep ⟨CsvMode.mNormal, [], row, acc⟩
      (renderField f ++ ',' :: rest) =
      List.foldl csvStep ⟨CsvMode.mNormal, [], row ++ [f], acc⟩ rest := by
  by_cases hq : needsQuote f = true
  · simp only [renderField, hq, if_true]
    rw [List.cons_append, List.foldl_cons]
    have h1 : csvStep ⟨CsvMode.mNormal, [], row, acc⟩ '"' =
        ⟨CsvMode.mInQ, [], row, acc⟩ := by simp [csvStep]
    rw [h1, List.append_assoc, List.foldl_append, csv_scan_quoted]
    simp only [List.nil_append, List.singleton_append, List.foldl_cons]
    have h2 : csvStep ⟨CsvMode.mInQ, f, row, acc⟩ '"' =
        ⟨CsvMode.mPostQ, f, row, acc⟩ := by simp [csvStep]
    have h3 : csvStep ⟨CsvMode.mPostQ, f, row, acc⟩ ',' =
        ⟨CsvMode.mNormal, [], row ++ [f], acc⟩ := by simp [csvStep]
    rw [h2, h3]
  · have hq' : needsQuote f = false := by
      revert hq; cases needsQuote f <;> simp
    simp only [renderField, hq']
    rw [if_neg (by simp)]
    rw [List.foldl_append, csv_scan_plain f [] row acc
      (plain_of_not_needsQuote f hq'), List.foldl_cons]
    have h1 : csvStep ⟨CsvMode.mNormal, [] ++ f, row, acc⟩ ',' =
        ⟨CsvMode.mNormal, [], row ++ [[] ++ f], acc⟩ := by simp [csvStep]
    rw [h1]
    simp

/-- Consuming one rendered field followed by a newline ends the line,
provided the line is not completely blank (which the reader would
skip). -/
theorem csv_field_newline (f : List Char) (row : List (List Char))
    (acc : List (List (List Char))) (rest : List Char)
    (hne : row ≠ [] ∨ f ≠ []) :
    List.foldl csvStep ⟨CsvMode.mNormal, [], row, acc⟩
      (renderField f ++ '\n' :: rest) =
      List.foldl csvStep ⟨CsvMode.mNormal, [], [], acc ++ [row ++ [f]]⟩
        rest := by
  by_cases hq : needsQuote f = true
  · simp only [renderField, hq, if_true]
    rw [List.cons_append, List.foldl_cons]
    have h1 : csvStep ⟨CsvMode.mNormal, [], row, acc⟩ '"' =
        ⟨CsvMode.mInQ, [], row, acc⟩ := by simp [csvStep]
    rw [h1, List.append_assoc, List.foldl_append, csv_scan_quoted]
    simp only [List.nil_append, List.singleton_append, List.foldl_cons]
    have h2 : csvStep ⟨CsvMode.mInQ, f, row, acc⟩ '"' =
        ⟨CsvMode.mPostQ, f, row, acc⟩ := by simp [csvStep]
    have h3 : csvStep ⟨CsvMode.mPostQ, f, row, acc⟩ '\n' =
        ⟨CsvMode.mNormal, [], [], acc ++ [row ++ [f]]⟩ := by simp [csvStep]
    rw [h2, h3]
  · have hq' : needsQuote f = false := by
      revert hq; cases needsQuote f <;> simp
    simp only [renderField, hq']
    rw [if_neg (by simp)]
    rw [List.foldl_append, csv_scan_plain f [] row acc
      (plain_of_not_needsQuote f hq'), List.foldl_cons]
    have hblank : (row.isEmpty && ([] ++ f : List Char).isEmpty) = false := by
      rcases hne with h | h
      · cases row with
        | nil => exact absurd rfl h
        | cons x t => simp [List.isEmpty]
      · cases f with
        | nil => exact absurd rfl h
        | cons x t => simp [List.isEmpty]
    have h1 : csvStep ⟨CsvMode.mNormal, [] ++ f, row, acc⟩ '\n' =
        ⟨CsvMode.mNormal, [], [], acc ++ [row ++ [[] ++ f]]⟩ := by
      simp only [csvStep]
      rw [if_neg (by simp), if_pos (by simp)]
      simp only [List.nil_append] at hblank ⊢
      rw [if_neg (by rw [hblank]; simp)]
    rw [h1]
    simp

/-- Consuming one rendered line appends its fields as one parsed row,
provided the line is neither empty nor a single empty field. -/
theorem csv_line_roundtrip (fs : List (List Char)) (row : List (List Char))
    (acc : List (List (List Char))) (rest : List Char) (hne : fs ≠ [])
    (hblank : row ≠ [] ∨ fs ≠ [[]]) :
    List.foldl csvStep ⟨CsvMode.mNormal, [], row, acc⟩
      (renderLine fs ++ '\n' :: rest) =
      List.foldl csvStep ⟨CsvMode.mNormal, [], [], acc ++ [row ++ fs]⟩
        rest := by
  induction fs generalizing row with
  | nil => exact absurd rfl hne
  | cons f fs' ih =>
    cases fs' with
    | nil =>
      have hf : row ≠ [] ∨ f ≠ [] := by
        rcases hblank with h | h
        · exact Or.inl h
        · refine Or.inr ?_
          intro hfe
          exact h (by rw [hfe])
      simpa [renderLine] using csv_field_newline f row acc rest hf
    | cons g t =>
      have hsplit : renderLine (f :: g :: t) ++ '\n' :: rest =
          renderField f ++ ',' :: (renderLine (g :: t) ++ '\n' :: rest) := by
        simp [renderLine]
      rw [hsplit, csv_field_comma]
      rw [ih (row ++ [f]) (by simp) (Or.inl (by simp))]
      simp

/-- Consuming all rendered lines appends them as the parsed rows, when no
line is empty or a single empty field. -/
theorem csv_rows_roundtrip (lines : List (List (List Char)))
    (acc : List (List (List Char)))
    (h : ∀ l ∈ lines, l ≠ [] ∧ l ≠ [[]]) :
    List.foldl csvStep ⟨CsvMode.mNormal, [], [], acc⟩ (renderRows lines) =
      ⟨CsvMode.mNormal, [], [], acc ++ lines⟩ := by
  induction lines generalizing acc with
  | nil => simp [renderRows]
  | cons l rest ih =>
    have hsplit : renderRows (l :: rest) =
        renderLine l ++ '\n' :: renderRows rest := by
      simp [renderRows]
    rw [hsplit]
    obtain ⟨h1, h2⟩ := h l (List.mem_cons_self _ _)
    rw [csv_line_roundtrip l [] acc (renderRows rest) h1 (Or.inr h2)]
    simp only [List.nil_append]
    rw [ih _ (fun x hx => h x (List.mem_cons_of_mem _ hx))]
    simp

/-- Tokenizing the rendered CSV text of a list of lines recovers exactly
those lines, when no line is empty or a single empty field. -/
theorem parseCsvRows_roundtrip (lines : List (List (List Char)))
    (h : ∀ l ∈ lines, l ≠ [] ∧ l ≠ [[]]) :
    parseCsvRows (renderRows lines) = lines := by
  unfold parseCsvRows
  rw [show (⟨CsvMode.mNormal, [], [], []⟩ : CsvSt) =
    ⟨CsvMode.mNormal, [], [], []⟩ from rfl]
  rw [csv_rows_roundtrip lines [] h]
  simp [csvFlush]

/-- A scan whose predicate holds everywhere takes the whole list. -/
theorem takeWhile_all_of (l : List Char) (p : Char → Bool)
    (h : ∀ c ∈ l, p c = true) : l.takeWhile p = l := by
  induction l with
  | nil => rfl
  | cons c t ih =>
    rw [List.takeWhile_cons, if_pos (h c (List.mem_cons_self _ _)),
      ih (fun x hx => h x (List.mem_cons_of_mem _ hx))]

/-- A nonempty all-digit text passes the unsigned numeric scan. -/
theorem isNumLitCore_digits (u : List Char) (hne : u ≠ [])
    (hall : ∀ c ∈ u, Char.isDigit c = true) : isNumLitCore u = true := by
  simp only [isNumLitCore]
  rw [takeWhile_all_of u _ hall, List.drop_length]
  cases u with
  | nil => exact absurd rfl hne
  | cons c t => simp

/-- An integer literal is a numeric literal. -/
theorem isIntLit_isNumLit (s : List Char) (h : isIntLit s = true) :
    isNumLit s = true := by
  cases s with
  | nil => simp [isIntLit] at h
  | cons c rest =>
    by_cases hs : ((c == '-') || (c == '+')) = true
    · rw [isIntLit] at h
      rw [if_pos hs] at h
      obtain ⟨hne, hall⟩ := Bool.and_eq_true_iff.mp h
      rw [isNumLit]
      rw [if_pos hs]
      refine isNumLitCore_digits rest ?_ (List.all_eq_true.mp hall)
      intro habs
      rw [habs] at hne
      simp at hne
    · have hs' : ((c == '-') || (c == '+')) = false := by
        revert hs; cases ((c == '-') || (c == '+')) <;> simp
      rw [isIntLit] at h
      rw [if_neg (by rw [hs']; simp)] at h
      rw [isNumLit]
      rw [if_neg (by rw [hs']; simp)]
      exact isNumLitCore_digits (c :: rest) (by simp)
        (List.all_eq_true.mp h)

/-- Properties of a plain cell text: not missing-like, not numeric, not
boolean, and nonempty. -/
theorem plainStr_props (v : List Char) (h : plainStr v = true) :
    naLike v = false ∧ isNumLit v = false ∧ isBoolLit v = false ∧
      v ≠ [] := by
  have h1 := h
  simp only [plainStr, Bool.and_eq_true_iff, Bool.not_eq_true'] at h1
  obtain ⟨⟨hna, hnum⟩, hbool⟩ := h1
  refine ⟨hna, hnum, hbool, ?_⟩
  intro habs
  rw [habs] at hna
  have : naLike [] = true := by decide
  rw [this] at hna
  cases hna

/-- A nonempty column of plain cell texts infers as the object dtype. -/
theorem colTy_tobj (cells : List (List Char)) (hne : cells ≠ [])
    (hp : ∀ x ∈ cells, plainStr x = true) : colTy cells = CTy.tobj := by
  cases cells with
  | nil => exact absurd rfl hne
  | cons x t =>
    obtain ⟨hna, hnum, hbool, _⟩ := plainStr_props x (hp x (List.mem_cons_self _ _))
    have h1 : isIntLit x = false := by
      cases hq : isIntLit x
      · rfl
      · rw [isIntLit_isNumLit x hq] at hnum; cases hnum
    have c1 : ((x :: t).all isIntLit) = false := by
      simp [List.all_cons, h1]
    have c2 : ((x :: t).all (fun c => naLike c || isNumLit c)) = false := by
      simp [List.all_cons, hna, hnum]
    have c3 : ((x :: t).all isBoolLit) = false := by
      simp [List.all_cons, hbool]
    simp [colTy, c1, c2, c3]

/-- An in-range default-get is a member. -/
theorem getD_mem_of_lt (l : List (List Char)) (j : Nat)
    (h : j < l.length) : l.getD j [] ∈ l := by
  rw [List.getD_eq_getElem l [] h]
  exact List.getElem_mem h

/-- Converting a row of non-missing cell texts under all-object column
dtypes keeps every cell as its string. -/
theorem zip_convert_tobj (r : List (List Char)) (n : Nat)
    (hlen : r.length ≤ n) (hpl : ∀ x ∈ r, naLike x = false) :
    (r.zip (List.replicate n CTy.tobj)).map
      (fun p => convertCell p.2 p.1) = r.map PdVal.pstr := by
  induction r generalizing n with
  | nil => rfl
  | cons x t ih =>
    cases n with
    | zero => simp at hlen
    | succ m =>
      simp only [List.replicate_succ, List.zip_cons_cons, List.map_cons]
      rw [show convertCell CTy.tobj x = PdVal.pstr x by
        simp [convertCell, hpl x (List.mem_cons_self _ _)]]
      rw [ih m (by simpa using Nat.le_of_succ_le_succ hlen)
        (fun y hy => hpl y (List.mem_cons_of_mem _ hy))]

/-- Reading back the rendered CSV of plain string columns and rows
recovers the header and every cell as a string. -/
theorem read_csv_plain (cols : List (List Char))
    (dataRows : List (List (List Char)))
    (hcols_ne : cols ≠ [])
    (hkeys_ne : ∀ c ∈ cols, c ≠ [])
    (hlens : ∀ r ∈ dataRows, r.length = cols.length)
    (hnonempty : dataRows ≠ [])
    (hplainall : ∀ r ∈ dataRows, ∀ x ∈ r, plainStr x = true) :
    pd_read_csv (renderRows (cols :: dataRows)) =
      Except.ok ⟨cols, dataRows.map (fun r => r.map PdVal.pstr)⟩ := by
  have hcond : ∀ l ∈ (cols :: dataRows), l ≠ [] ∧ l ≠ [[]] := by
    intro l hl
    rcases List.mem_cons.mp hl with rfl | hl'
    · refine ⟨hcols_ne, ?_⟩
      intro habs
      exact hkeys_ne [] (by rw [habs]; exact List.mem_cons_self _ _) rfl
    · constructor
      · intro habs
        have hz := hlens l hl'
        rw [habs] at hz
        simp only [List.length_nil] at hz
        have hpos : 0 < cols.length :=
          List.length_pos.mpr hcols_ne
        omega
      · intro habs
        have hpl := hplainall l hl' []
          (by rw [habs]; exact List.mem_cons_self _ _)
        have := (plainStr_props [] hpl).2.2.2
        exact this rfl
  have hparse := parseCsvRows_roundtrip (cols :: dataRows) hcond
  unfold pd_read_csv
  rw [hparse]
  have hwide : (dataRows.any (fun r => cols.length < r.length)) = false := by
    rw [List.any_eq_false]
    intro r hr
    rw [hlens r hr]
    simp
  simp only [hwide, Bool.false_eq_true, if_false]
  have hpad : dataRows.map
      (fun r => r ++ List.replicate (cols.length - r.length) []) =
      dataRows := by
    refine (List.map_congr_left ?_).trans (List.map_id dataRows)
    intro r hr
    rw [hlens r hr]
    simp
  rw [hpad]
  have hctys : ((List.range cols.length).map
      (fun j => colTy (dataRows.map (fun r => r.getD j [])))) =
      List.replicate cols.length CTy.tobj := by
    have hrep : List.replicate cols.length CTy.tobj =
        (List.range cols.length).map (fun _ => CTy.tobj) := by
      rw [List.map_const']
      simp
    rw [hrep]
    refine List.map_congr_left ?_
    intro j hj
    have hjlt : j < cols.length := List.mem_range.mp hj
    refine colTy_tobj _ ?_ ?_
    · intro habs
      rw [List.map_eq_nil_iff] at habs
      exact hnonempty habs
    · intro x hx
      obtain ⟨r, hr, hxeq⟩ := List.mem_map.mp hx
      have hlt : j < r.length := by rw [hlens r hr]; exact hjlt
      exact hxeq ▸ hplainall r hr _ (getD_mem_of_lt r j hlt)
  rw [hctys]
  refine congrArg Except.ok (congrArg (Df2.mk cols) ?_)
  refine List.map_congr_left ?_
  intro r hr
  refine zip_convert_tobj r cols.length (by rw [hlens r hr]) ?_
  intro x hx
  exact (plainStr_props x (hplainall r hr x hx)).1

/-- A key present among a record's keys is found, together with its
binding. -/
theorem find_mem_keys (r : List (List Char × List Char)) (c : List Char)
    (h : c ∈ r.map Prod.fst) :
    ∃ kv ∈ r, r.find? (fun kv => kv.1 == c) = some kv ∧ kv.1 = c := by
  induction r with
  | nil => simp at h
  | cons hd tl ih =>
    by_cases hk : (hd.1 == c) = true
    · exact ⟨hd, List.mem_cons_self _ _, by simp [List.find?, hk],
        eq_of_beq hk⟩
    · have hk' : (hd.1 == c) = false := by
        revert hk; cases (hd.1 == c) <;> simp
      have hc : c ∈ tl.map Prod.fst := by
        rcases List.mem_map.mp h with ⟨kv, hkv, hkveq⟩
        rcases List.mem_cons.mp hkv with rfl | hmem
        · rw [hkveq] at hk'
          simp at hk'
        · exact List.mem_map.mpr ⟨kv, hmem, hkveq⟩
      obtain ⟨kv, hmem, hfind, hkeq⟩ := ih hc
      exact ⟨kv, List.mem_cons_of_mem _ hmem,
        by simp [List.find?, hk', hfind], hkeq⟩

/-- For a key among the record's keys, cell lookup in the flattened
record yields the string cell of the record's value. -/
theorem lookupCell_eq_cstr (r : List (List Char × List Char))
    (c : List Char) (hc : c ∈ r.map Prod.fst) :
    lookupCell (r.map (fun kv => (kv.1, Cell.cstr kv.2))) c =
      Cell.cstr (lookupV r c) := by
  rw [lookupCell_map]
  unfold lookupV
  cases hfind : r.find? (fun kv => kv.1 == c) with
  | some kv => rfl
  | none =>
    obtain ⟨kv, _, hfindeq, _⟩ := find_mem_keys r c hc
    rw [hfind] at hfindeq
    cases hfindeq

/-- With duplicate-free keys, lookup of a member's key finds exactly that
member. -/
theorem find_of_nodup (r : List (List Char × List Char))
    (kv : List Char × List Char) (hnd : (r.map Prod.fst).Nodup)
    (h : kv ∈ r) : r.find? (fun x => x.1 == kv.1) = some kv := by
  induction r with
  | nil => cases h
  | cons hd tl ih =>
    simp only [List.map_cons] at hnd
    have hnotin : hd.1 ∉ tl.map Prod.fst := (List.nodup_cons.mp hnd).1
    have hnd' : (tl.map Prod.fst).Nodup := (List.nodup_cons.mp hnd).2
    rcases List.mem_cons.mp h with rfl | hmem
    · simp [List.find?]
    · by_cases hk : (hd.1 == kv.1) = true
      · exfalso
        have h1 : hd.1 = kv.1 := eq_of_beq hk
        have h2 : kv.1 ∈ tl.map Prod.fst :=
          List.mem_map.mpr ⟨kv, hmem, rfl⟩
        exact hnotin (h1 ▸ h2)
      · have hk' : (hd.1 == kv.1) = false := by
          revert hk; cases (hd.1 == kv.1) <;> simp
        simp only [List.find?, hk']
        exact ih hnd' hmem

/-- With duplicate-free keys, value lookup of a member's key yields its
value. -/
theorem lookupV_nodup (r : List (List Char × List Char))
    (kv : List Char × List Char) (hnd : (r.map Prod.fst).Nodup)
    (h : kv ∈ r) : lookupV r kv.1 = kv.2 := by
  unfold lookupV
  rw [find_of_nodup r kv hnd h]

/-- Value lookup of a present key yields the value of some member with
that key. -/
theorem lookupV_spec (r : List (List Char × List Char)) (c : List Char)
    (h : c ∈ r.map Prod.fst) :
    ∃ kv ∈ r, kv.1 = c ∧ lookupV r c = kv.2 := by
  obtain ⟨kv, hmem, hfind, hkeq⟩ := find_mem_keys r c h
  exact ⟨kv, hmem, hkeq, by unfold lookupV; rw [hfind]⟩

/-- Membership after adding a column. -/
theorem addCol_mem (acc : List (List Char)) (k c : List Char)
    (h : c ∈ addCol acc k) : c ∈ acc ∨ c = k := by
  unfold addCol at h
  split at h
  · exact Or.inl h
  · rcases List.mem_append.mp h with h1 | h1
    · exact Or.inl h1
    · exact Or.inr (by simpa using h1)

/-- Membership after folding one record's keys into the column set. -/
theorem foldl_addCol_mem (r : List (List Char × List Char))
    (acc : List (List Char)) (c : List Char)
    (h : c ∈ r.foldl (fun a kv => addCol a kv.1) acc) :
    c ∈ acc ∨ c ∈ r.map Prod.fst := by
  induction r generalizing acc with
  | nil => exact Or.inl h
  | cons kv t ih =>
    have h0 : c ∈ t.foldl (fun a kv => addCol a kv.1) (addCol acc kv.1) := by
      simpa using h
    rcases ih _ h0 with h1 | h1
    · rcases addCol_mem acc kv.1 c h1 with h2 | h2
      · exact Or.inl h2
      · subst h2
        refine Or.inr ?_
        simp only [List.map_cons]
        exact List.mem_cons_self _ _
    · refine Or.inr ?_
      simp only [List.map_cons]
      exact List.mem_cons_of_mem _ h1

/-- Every first-seen column is a key of some record. -/
theorem recsCols_mem (rs : List (List (List Char × List Char)))
    (c : List Char) (h : c ∈ recsCols rs) :
    ∃ r ∈ rs, c ∈ r.map Prod.fst := by
  unfold recsCols at h
  suffices haux : ∀ (l : List (List (List Char × List Char)))
      (acc : List (List Char)),
      c ∈ l.foldl (fun acc r => r.foldl (fun a kv => addCol a kv.1) acc) acc →
      c ∈ acc ∨ ∃ r ∈ l, c ∈ r.map Prod.fst by
    rcases haux rs [] h with h1 | h1
    · cases h1
    · exact h1
  intro l
  induction l with
  | nil => intro acc h1; exact Or.inl h1
  | cons r t ih =>
    intro acc h1
    rcases ih _ (by simpa using h1) with h2 | h2
    · rcases foldl_addCol_mem r acc c h2 with h3 | h3
      · exact Or.inl h3
      · exact Or.inr ⟨r, List.mem_cons_self _ _, h3⟩
    · obtain ⟨r', hr', hc'⟩ := h2
      exact Or.inr ⟨r', List.mem_cons_of_mem _ hr', hc'⟩

/-- Zipping a list with its own image pairs each element with its
image. -/
theorem zip_self_map (l : List (List Char)) (g : List Char → PdVal) :
    l.zip (l.map g) = l.map (fun x => (x, g x)) := by
  induction l with
  | nil => rfl
  | cons x t ih => simp [ih]

/-- A pointwise property along a map gives the pairwise relation. -/
theorem forall₂_map_of_mem {α β : Type} (rs : List α) (f : α → β)
    (P : β → α → Prop) (h : ∀ r ∈ rs, P (f r) r) :
    List.Forall₂ P (rs.map f) rs := by
  induction rs with
  | nil => exact List.Forall₂.nil
  | cons r t ih =>
    exact List.Forall₂.cons (h r (List.mem_cons_self _ _))
      (ih (fun x hx => h x (List.mem_cons_of_mem _ hx)))

/-- The canonical records-path output of a record with duplicate-free
keys covering exactly the columns carries the same set of key-to-value
pairs as the record, with values as strings. -/
theorem samePairs_canon (cols : List (List Char))
    (r : List (List Char × List Char))
    (hnd : (r.map Prod.fst).Nodup)
    (hmem : ∀ k, k ∈ r.map Prod.fst ↔ k ∈ cols) :
    samePairs (canonRec cols r) r := by
  constructor
  · intro kv hkv
    have hc : kv.1 ∈ cols :=
      (hmem kv.1).mp (List.mem_map.mpr ⟨kv, hkv, rfl⟩)
    refine List.mem_map.mpr ⟨kv.1, hc, ?_⟩
    rw [lookupV_nodup r kv hnd hkv]
  · intro kw hkw
    obtain ⟨c, hc, hceq⟩ := List.mem_map.mp hkw
    obtain ⟨kv, hkv, hk1, hlv⟩ := lookupV_spec r c ((hmem c).mpr hc)
    exact ⟨kv, hkv, by rw [← hceq, hlv, hk1]⟩

/-- C4 amended: for every nonempty sequence of flat records whose keys
are nonempty, duplicate-free and the same set in every record, and whose
values are nonempty strings that the delimited-text reader keeps as
strings (not missing-value, numeric or boolean literals), normalizing to
the delimited-text payload and rendering that payload in records format
returns, per row, exactly the canonical pairs in stable first-seen column
order, which carry the same set of key-to-value pairs as the original
record with all values as strings. -/
theorem records_roundtrip_plain (rs : List (List (List Char × List Char)))
    (hne : rs ≠ [])
    (hcols : recsCols rs ≠ [])
    (hnd : ∀ r ∈ rs, (r.map Prod.fst).Nodup)
    (hperm : ∀ r ∈ rs, (r.map Prod.fst).Perm (recsCols rs))
    (hplain : ∀ r ∈ rs, ∀ kv ∈ r, kv.1 ≠ [] ∧ plainStr kv.2 = true) :
    records_roundtrip rs = Except.ok (rs.map (canonRec (recsCols rs))) ∧
    List.Forall₂ samePairs (rs.map (canonRec (recsCols rs))) rs := by
  have hmemiff : ∀ r ∈ rs, ∀ k,
      (k ∈ r.map Prod.fst ↔ k ∈ recsCols rs) := by
    intro r hr k
    exact (hperm r hr).mem_iff
  have h1 := normalize_flat rs (recsFuel rs)
    (fun r hr => recsFuel_mem rs r hr)
  have hrows : rs.map (fun r => (recsCols rs).map (fun c =>
      lookupCell (r.map (fun kv => (kv.1, Cell.cstr kv.2))) c)) =
      rs.map (fun r => (recsCols rs).map
        (fun c => Cell.cstr (lookupV r c))) := by
    refine List.map_congr_left ?_
    intro r hr
    refine List.map_congr_left ?_
    intro c hc
    exact lookupCell_eq_cstr r c ((hmemiff r hr c).mpr hc)
  rw [hrows] at h1
  have hcsv : df_to_csv ⟨recsCols rs,
      rs.map (fun r => (recsCols rs).map
        (fun c => Cell.cstr (lookupV r c)))⟩ =
      renderRows ((recsCols rs) ::
        rs.map (fun r => (recsCols rs).map (fun c => lookupV r c))) := by
    unfold df_to_csv
    refine congrArg renderRows (congrArg (List.cons (recsCols rs)) ?_)
    rw [List.map_map]
    refine List.map_congr_left ?_
    intro r hr
    simp only [Function.comp]
    rw [List.map_map]
    rfl
  have hplainrows : ∀ row ∈ rs.map (fun r => (recsCols rs).map
      (fun c => lookupV r c)), ∀ x ∈ row, plainStr x = true := by
    intro row hrow x hx
    obtain ⟨r, hr, hroweq⟩ := List.mem_map.mp hrow
    rw [← hroweq] at hx
    obtain ⟨c, hc, hceq⟩ := List.mem_map.mp hx
    obtain ⟨kv, hkv, hk1, hlv⟩ := lookupV_spec r c ((hmemiff r hr c).mpr hc)
    rw [← hceq, hlv]
    exact (hplain r hr kv hkv).2
  have hkeysne : ∀ c ∈ recsCols rs, c ≠ [] := by
    intro c hc
    obtain ⟨r, hr, hck⟩ := recsCols_mem rs c hc
    obtain ⟨kv, hkv, hkveq⟩ := List.mem_map.mp hck
    rw [← hkveq]
    exact (hplain r hr kv hkv).1
  have hlens : ∀ row ∈ rs.map (fun r => (recsCols rs).map
      (fun c => lookupV r c)), row.length = (recsCols rs).length := by
    intro row hrow
    obtain ⟨r, hr, hroweq⟩ := List.mem_map.mp hrow
    rw [← hroweq, List.length_map]
  have hnonempty : rs.map (fun r => (recsCols rs).map
      (fun c => lookupV r c)) ≠ [] := by
    intro habs
    exact hne (List.map_eq_nil_iff.mp habs)
  have h4 := read_csv_plain (recsCols rs)
    (rs.map (fun r => (recsCols rs).map (fun c => lookupV r c)))
    hcols hkeysne hlens hnonempty hplainrows
  have hdict : df2_to_dict ⟨recsCols rs,
      (rs.map (fun r => (recsCols rs).map (fun c => lookupV r c))).map
        (fun r => r.map PdVal.pstr)⟩ =
      rs.map (canonRec (recsCols rs)) := by
    simp only [df2_to_dict, List.map_map]
    refine List.map_congr_left ?_
    intro r hr
    simp only [Function.comp]
    rw [List.map_map]
    show (recsCols rs).zip ((recsCols rs).map
      (fun c => PdVal.pstr (lookupV r c))) = _
    rw [zip_self_map (recsCols rs) (fun c => PdVal.pstr (lookupV r c))]
    rfl
  constructor
  · simp only [records_roundtrip, h1, hcsv, h4, hdict]
  · refine forall₂_map_of_mem rs _ samePairs ?_
    intro r hr
    exact samePairs_canon (recsCols rs) r (hnd r hr) (hmemiff r hr)

/-- The concrete record sequence of the C4 witness. -/
def c4rs : List (List (List Char × List Char)) :=
  [[(strLit "name", strLit "Ann"), (strLit "city", strLit "Oslo, NO")],
   [(strLit "city", strLit "Lima"), (strLit "name", strLit "Bo")]]

/-- Witness for C4 at a concrete well-formed record sequence with
permuted keys and a comma-bearing value. -/
theorem records_roundtrip_plain_witness :
    (c4rs ≠ [] ∧ recsCols c4rs ≠ [] ∧
     (∀ r ∈ c4rs, (r.map Prod.fst).Nodup) ∧
     (∀ r ∈ c4rs, (r.map Prod.fst).Perm (recsCols c4rs)) ∧
     (∀ r ∈ c4rs, ∀ kv ∈ r, kv.1 ≠ [] ∧ plainStr kv.2 = true)) ∧
    (records_roundtrip c4rs =
      Except.ok (c4rs.map (canonRec (recsCols c4rs))) ∧
     List.Forall₂ samePairs (c4rs.map (canonRec (recsCols c4rs))) c4rs) := by
  have h1 : c4rs ≠ [] := by decide
  have h2 : recsCols c4rs ≠ [] := by decide
  have h3 : ∀ r ∈ c4rs, (r.map Prod.fst).Nodup := by decide
  have h4 : ∀ r ∈ c4rs, (r.map Prod.fst).Perm (recsCols c4rs) := by decide
  have h5 : ∀ r ∈ c4rs, ∀ kv ∈ r, kv.1 ≠ [] ∧ plainStr kv.2 = true := by
    decide
  exact ⟨⟨h1, h2, h3, h4, h5⟩,
    records_roundtrip_plain c4rs h1 h2 h3 h4 h5⟩
